import Mathlib

set_option linter.unusedSectionVars false

/-!
Shallow embedding of the `cpp-search-server` repository (authoritative
snapshot: the validated `SearchServer` class, `src/unnamed/part_001`).

Modelling conventions:
* `std::map` / `std::set` are modelled as association lists / lists kept in
  strictly increasing key order, exactly mirroring the ordered iteration of the
  C++ containers.  `alBump k f m` models `m[k]` access-and-update
  (`operator[]` with default construction followed by an update `f`),
  `alErase` models `map::erase`, `alLookup` models `find/at/count`.
* C++ `double` values are modelled exactly: term frequencies are rationals
  (`ℚ`), relevance values (which involve `std::log`) live in `ℝ` with
  `Real.log`.
* C++ exceptions are modelled with `Except SearchError`.  The two
  `invalid_argument` throws of query parsing are both `.invalidQuery`; the
  `std::out_of_range` raised by `document_id_to_rating_and_rating_.at` is
  `.unknownDocument` and the one raised by `tf_.at` (on a term that is not an
  index key) is `.missingTerm`.
* `std::sort` with the relevance/rating comparator is modelled as insertion
  sort with the very same comparator.  The comparator fails to be a strict
  weak order on document sets whose relevances are distinct but within
  `EPSILON` of each other with opposed ratings; at such inputs `std::sort`'s
  precondition is violated and the C++ standard leaves the behaviour
  undefined, so any fixed permutation (including this refinement's) is a
  modelling choice, and properties that depend on the output order at such
  inputs are not determined by the source.  Properties proved below either
  hold for every permutation (e.g. the result-count cap) or are confined to
  the regime where the comparator behaves as a strict weak order.
-/

namespace SearchSpec

/-! ## Sorted association lists (model of `std::map`) and sorted lists
(model of `std::set`) -/

/-- Lookup in an association list (first occurrence), model of
`map::find` / `map::at` / `map::count`. -/
def alLookup {K V : Type} [DecidableEq K] : List (K × V) → K → Option V
  | [], _ => none
  | (k', v) :: rest, k => if k = k' then some v else alLookup rest k

/-- Model of `m[k]`: update the value at `k` with `f (some old)`, or insert
`f none` at the sorted position when `k` is absent. -/
def alBump {K V : Type} [LinearOrder K] (k : K) (f : Option V → V) :
    List (K × V) → List (K × V)
  | [] => [(k, f none)]
  | (k', v) :: rest =>
    if k = k' then (k', f (some v)) :: rest
    else if k < k' then (k, f none) :: (k', v) :: rest
    else (k', v) :: alBump k f rest

/-- Model of `map::erase k` (removes the unique entry with key `k`). -/
def alErase {K V : Type} [DecidableEq K] (k : K) : List (K × V) → List (K × V)
  | [] => []
  | (k', v) :: rest => if k = k' then rest else (k', v) :: alErase k rest

/-- Strictly increasing key order: the invariant of every `std::map` model. -/
def SKey {K V : Type} [LinearOrder K] (m : List (K × V)) : Prop :=
  m.Pairwise (fun a b => a.1 < b.1)

/-- Model of `set::insert`: sorted insertion without duplication. -/
def sInsert {K : Type} [LinearOrder K] (k : K) : List K → List K
  | [] => [k]
  | k' :: rest =>
    if k = k' then k' :: rest
    else if k < k' then k :: k' :: rest
    else k' :: sInsert k rest

/-! ## Tokenizer -/

abbrev Word := String
abbrev DocumentId := Int

/-- Whitespace recognised by `istream_iterator<string>` in the "C" locale. -/
def isSpaceChar (c : Char) : Bool :=
  c.toNat = 32 || (9 ≤ c.toNat && c.toNat ≤ 13)

/-- Character-level splitter; `acc` is the (reversed) word being read. -/
def splitWordsAux : List Char → List Char → List Word
  | [], acc => if acc.isEmpty then [] else [String.mk acc.reverse]
  | c :: cs, acc =>
    if isSpaceChar c then
      if acc.isEmpty then splitWordsAux cs []
      else String.mk acc.reverse :: splitWordsAux cs []
    else splitWordsAux cs (c :: acc)

/-- Model of `SplitIntoWords`: whitespace tokenisation. -/
def SplitIntoWords (text : String) : List Word :=
  splitWordsAux text.data []

/-- Model of `IsInvalid`: the text contains a control character
(byte value 0–31; in C++ the check `0 <= c && c <= 31` on a signed `char`). -/
def IsInvalid (text : String) : Bool :=
  text.data.any (fun c => c.toNat ≤ 31)

/-- Model of `MakeUniqueNonEmptyStrings` (iterates the container inserting
every non-empty string into a `std::set`). -/
def MakeUniqueNonEmptyStrings (strings : List String) : List String :=
  strings.foldl (fun acc s => if s.isEmpty then acc else sInsert s acc) []

/-! ## Data model -/

inductive DocumentStatus
  | ACTUAL
  | IRRELEVANT
  | BANNED
  | REMOVED
deriving DecidableEq, Repr

/-- Result record (`struct Document` of the source). -/
structure Document where
  id : DocumentId
  relevance : ℝ
  status : DocumentStatus
  rating : Int

/-- Error taxonomy of the source (see the module documentation for the map
from C++ exceptions to constructors). -/
inductive SearchError
  | invalidConfig
  | invalidDocument
  | invalidQuery
  | unknownDocument
  | missingTerm
deriving DecidableEq, Repr

/-- State of a `SearchServer` object; field names follow the source. -/
structure SearchServer where
  tf_ : List (Word × List (DocumentId × ℚ))
  stop_words_ : List Word
  document_id_to_rating_and_rating_ : List (DocumentId × (Int × DocumentStatus))
  document_id_orders_ : List DocumentId
deriving DecidableEq, Repr

/-- Model of the `SearchServer` constructor taking a container of stop words
(the string constructor delegates to it via `SplitIntoWords`). -/
def mkSearchServer (stop_words : List String) : Except SearchError SearchServer :=
  if (MakeUniqueNonEmptyStrings stop_words).any IsInvalid then
    .error .invalidConfig
  else .ok ⟨[], MakeUniqueNonEmptyStrings stop_words, [], []⟩

namespace SearchServer

def MAX_RESULT_DOCUMENT_COUNT : Nat := 5

noncomputable def EPSILON : ℝ := 1 / 1000000

def IsStopWord (s : SearchServer) (word : Word) : Bool :=
  s.stop_words_.contains word

def SplitIntoWordsNoStop (s : SearchServer) (text : String) : List Word :=
  (SplitIntoWords text).filter (fun w => !s.IsStopWord w)

/-- Model of `ComputeAverageRating`: C++ `int` division truncates toward
zero, hence `Int.div`. -/
def ComputeAverageRating (ratings : List Int) : Int :=
  if ratings.isEmpty then 0
  else Int.tdiv (ratings.foldl (· + ·) 0) (ratings.length : Int)

/-- One `tf_[word][document_id] += step` update of `AddDocument`. -/
def tfBump (word : Word) (id : DocumentId) (step : ℚ)
    (m : List (Word × List (DocumentId × ℚ))) :
    List (Word × List (DocumentId × ℚ)) :=
  alBump word (fun o => alBump id (fun o' => o'.getD 0 + step) (o.getD [])) m

/-- Model of `AddDocument`. -/
def AddDocument (s : SearchServer) (document_id : DocumentId) (document : String)
    (status : DocumentStatus) (ratings : List Int) :
    Except SearchError SearchServer :=
  if document_id < 0 ∨
      (alLookup s.document_id_to_rating_and_rating_ document_id).isSome ∨
      IsInvalid document then
    .error .invalidDocument
  else
    let words := s.SplitIntoWordsNoStop document
    let step : ℚ := 1 / (words.length : ℚ)
    .ok { s with
      document_id_to_rating_and_rating_ :=
        alBump document_id (fun _ => (ComputeAverageRating ratings, status))
          s.document_id_to_rating_and_rating_
      tf_ := words.foldl (fun m word => tfBump word document_id step m) s.tf_
      document_id_orders_ := s.document_id_orders_ ++ [document_id] }

def GetDocumentCount (s : SearchServer) : Nat :=
  s.document_id_orders_.length

/-! ## Query parsing -/

structure QueryWord where
  data : Word
  is_minus : Bool
  is_stop : Bool

structure Query where
  plus_words : List Word
  minus_words : List Word
deriving DecidableEq, Repr

/-- Model of `ParseQueryWord`. -/
def ParseQueryWord (s : SearchServer) (text : Word) : Except SearchError QueryWord :=
  if IsInvalid text then .error .invalidQuery
  else
    match text.data with
    | '-' :: rest =>
      if rest.isEmpty || rest.headD ' ' = '-' then .error .invalidQuery
      else
        let stripped := String.mk rest
        .ok ⟨stripped, true, s.IsStopWord stripped⟩
    | _ => .ok ⟨text, false, s.IsStopWord text⟩

/-- One step of the `ParseQuery` loop. -/
def parseStep (s : SearchServer) (q : Query) (word : Word) :
    Except SearchError Query := do
  let query_word ← s.ParseQueryWord word
  if query_word.is_stop then pure q
  else if query_word.is_minus then
    pure ⟨q.plus_words, sInsert query_word.data q.minus_words⟩
  else
    pure ⟨sInsert query_word.data q.plus_words, q.minus_words⟩

/-- Model of `ParseQuery`. -/
def ParseQuery (s : SearchServer) (text : String) : Except SearchError Query :=
  (s.SplitIntoWordsNoStop text).foldlM (s.parseStep) ⟨[], []⟩

/-! ## Relevance engine -/

/-- Model of `CalculateIDF`. -/
noncomputable def CalculateIDF (s : SearchServer) (documents_number : Nat) : ℝ :=
  Real.log ((s.GetDocumentCount : ℝ) / (documents_number : ℝ))

/-- One `relevance[document_id] += idf * tf_value` step of `FindAllDocuments`. -/
noncomputable def bumpRel (idf : ℝ) (m : List (DocumentId × ℝ))
    (p : DocumentId × ℚ) : List (DocumentId × ℝ) :=
  alBump p.1 (fun o => o.getD 0 + idf * (p.2 : ℝ)) m

/-- Processing of one plus-term by `FindAllDocuments`: terms absent from the
index are skipped (`tf_.count(word) == 0`), otherwise every posting
accumulates `idf * tf`. -/
noncomputable def accTerm (s : SearchServer) (m : List (DocumentId × ℝ))
    (word : Word) : List (DocumentId × ℝ) :=
  match alLookup s.tf_ word with
  | none => m
  | some ps => ps.foldl (bumpRel (s.CalculateIDF ps.length)) m

/-- Processing of one minus-term by `FindAllDocuments`: terms absent from the
index are skipped, otherwise every posted document is erased. -/
noncomputable def eraseTerm (s : SearchServer) (m : List (DocumentId × ℝ))
    (word : Word) : List (DocumentId × ℝ) :=
  match alLookup s.tf_ word with
  | none => m
  | some ps => ps.foldl (fun m p => alErase p.1 m) m

/-- The plus-term accumulation loop of `FindAllDocuments`. -/
noncomputable def plusPhase (s : SearchServer) (plus : List Word) :
    List (DocumentId × ℝ) :=
  plus.foldl (s.accTerm) []

/-- The minus-term exclusion loop of `FindAllDocuments`. -/
noncomputable def minusPhase (s : SearchServer) (minus : List Word)
    (m : List (DocumentId × ℝ)) : List (DocumentId × ℝ) :=
  minus.foldl (s.eraseTerm) m

/-- The relevance map computed by `FindAllDocuments` before result emission. -/
noncomputable def FindAllRelevance (s : SearchServer) (q : Query) :
    List (DocumentId × ℝ) :=
  s.minusPhase q.minus_words (s.plusPhase q.plus_words)

/-- Emission loop of `FindAllDocuments`
(`document_id_to_rating_and_rating_.at` may throw). -/
noncomputable def emitDocuments (s : SearchServer) :
    List (DocumentId × ℝ) → Except SearchError (List Document)
  | [] => .ok []
  | (d, rel) :: rest =>
    match alLookup s.document_id_to_rating_and_rating_ d with
    | none => .error .unknownDocument
    | some (rating, status) =>
      (emitDocuments s rest).map (fun l => ⟨d, rel, status, rating⟩ :: l)

/-- Model of `FindAllDocuments`. -/
noncomputable def FindAllDocuments (s : SearchServer) (q : Query) :
    Except SearchError (List Document) :=
  s.emitDocuments (s.FindAllRelevance q)

/-! ## Ranking, filtering, truncation -/

/-- The comparator passed to `std::sort` in `FindTopDocuments`. -/
noncomputable def sortLt (lhs rhs : Document) : Prop :=
  rhs.relevance < lhs.relevance ∨
    (|lhs.relevance - rhs.relevance| < EPSILON ∧ rhs.rating < lhs.rating)

noncomputable instance : DecidableRel sortLt := fun _ _ => Classical.dec _

noncomputable def insertSorted (x : Document) : List Document → List Document
  | [] => [x]
  | y :: ys => if sortLt x y then x :: y :: ys else y :: insertSorted x ys

/-- Insertion sort with the source's comparator (model of the `std::sort`
call). -/
noncomputable def sortDocs : List Document → List Document
  | [] => []
  | x :: xs => insertSorted x (sortDocs xs)

/-- Model of the predicate-taking `FindTopDocuments` overload:
parse, score, sort, filter (`remove_if` keeps documents accepted by the
predicate), truncate to `MAX_RESULT_DOCUMENT_COUNT`. -/
noncomputable def FindTopDocuments (s : SearchServer) (raw_query : String)
    (filter : DocumentId → DocumentStatus → Int → Bool) :
    Except SearchError (List Document) := do
  let query_words ← s.ParseQuery raw_query
  let matched ← s.FindAllDocuments query_words
  let sorted := sortDocs matched
  let kept := sorted.filter (fun d => filter d.id d.status d.rating)
  if MAX_RESULT_DOCUMENT_COUNT < kept.length then
    return kept.take MAX_RESULT_DOCUMENT_COUNT
  else
    return kept

/-- Model of the status-based `FindTopDocuments` overload. -/
noncomputable def FindTopDocumentsByStatus (s : SearchServer) (raw_query : String)
    (status : DocumentStatus := .ACTUAL) : Except SearchError (List Document) :=
  s.FindTopDocuments raw_query (fun _ status_ _ => status_ = status)

/-! ## Matching -/

/-- The minus-word loop of `MatchDocument`: note that `tf_.at word` is called
without first checking `tf_.count(word)`, so an absent minus-term raises
`std::out_of_range` (modelled as `.missingTerm`). Returns `true` when the
document is excluded by some minus-term. -/
def matchMinus (s : SearchServer) (document_id : DocumentId) :
    List Word → Except SearchError Bool
  | [] => .ok false
  | word :: rest =>
    match alLookup s.tf_ word with
    | none => .error .missingTerm
    | some ps =>
      if (alLookup ps document_id).isSome then .ok true
      else s.matchMinus document_id rest

/-- Model of `MatchDocument`. -/
def MatchDocument (s : SearchServer) (raw_query : String) (document_id : DocumentId) :
    Except SearchError (List Word × DocumentStatus) := do
  let query ← s.ParseQuery raw_query
  match alLookup s.document_id_to_rating_and_rating_ document_id with
  | none => .error .unknownDocument
  | some (_, status) => do
    let excluded ← s.matchMinus document_id query.minus_words
    if excluded then
      return ([], status)
    else
      let matched_words := query.plus_words.foldl (fun acc word =>
        match alLookup s.tf_ word with
        | none => acc
        | some ps => if (alLookup ps document_id).isSome then sInsert word acc else acc) []
      return (matched_words, status)

end SearchServer

/-! ## Derived views of the state, used to state the claims -/

namespace SearchServer

/-- Sum of the stored tf values over the postings of one term that carry
document `d` (a well-formed posting list has at most one such entry). -/
def postingSum (ps : List (DocumentId × ℚ)) (d : DocumentId) : ℚ :=
  ((ps.filter (fun p => p.1 = d)).map (fun p => p.2)).sum

/-- Whether term `word` is an index key whose postings mention `d`. -/
def termHits (s : SearchServer) (word : Word) (d : DocumentId) : Bool :=
  match alLookup s.tf_ word with
  | none => false
  | some ps => ps.any (fun p => p.1 = d)

/-- The relevance contribution of one plus-term to document `d`:
`ln(total_document_count / postings_count) * tf`, and `0` for a term absent
from the index. -/
noncomputable def termContribution (s : SearchServer) (word : Word)
    (d : DocumentId) : ℝ :=
  match alLookup s.tf_ word with
  | none => 0
  | some ps => s.CalculateIDF ps.length * (postingSum ps d : ℝ)

/-- The tf row of one document: every (term, stored tf value) pair of the
inverted index whose postings mention `d`. -/
def rowOf (s : SearchServer) (d : DocumentId) : List (Word × ℚ) :=
  s.tf_.filterMap (fun p => (alLookup p.2 d).map (fun v => (p.1, v)))

/-- Direct lookup of the stored tf value of `(word, d)`. -/
def rowLookup (s : SearchServer) (word : Word) (d : DocumentId) : Option ℚ :=
  (alLookup s.tf_ word).bind (fun ps => alLookup ps d)

end SearchServer

/-- The distinct words of `ws` in increasing order. -/
def sortedKeys (ws : List Word) : List Word :=
  ws.foldl (fun acc w => sInsert w acc) []

/-- The tf row that `AddDocument` produces from the non-stop word list `ws`:
each distinct word maps to `occurrences / total`. -/
def canonRow (ws : List Word) : List (Word × ℚ) :=
  (sortedKeys ws).map (fun w => (w, (ws.count w : ℚ) / (ws.length : ℚ)))

/-- Structural well-formedness of a server state, maintained by every
reachable state: the maps are sorted, stop words are never index keys,
postings only mention registered documents, and every non-empty document row
is the canonical row of some non-empty word list. -/
def WF (s : SearchServer) : Prop :=
  SKey s.tf_ ∧
  (∀ p ∈ s.tf_, SKey p.2) ∧
  SKey s.document_id_to_rating_and_rating_ ∧
  (∀ w ∈ s.stop_words_, alLookup s.tf_ w = none) ∧
  (∀ w ps, alLookup s.tf_ w = some ps → ∀ d, (alLookup ps d).isSome →
    (alLookup s.document_id_to_rating_and_rating_ d).isSome) ∧
  (∀ d : DocumentId, s.rowOf d = [] ∨
    ∃ ws : List Word, ws ≠ [] ∧ s.rowOf d = canonRow ws)

/-- Length of a successful result list (`0` for an error). -/
def okLength (r : Except SearchError (List Document)) : Nat :=
  match r with
  | .ok l => l.length
  | .error _ => 0

/-- The ranking-order relation claimed by the specification for adjacent
result pairs: strictly greater relevance, or relevance equal within
`EPSILON` and a no-smaller rating. -/
noncomputable def rankedPair (a b : Document) : Prop :=
  b.relevance < a.relevance ∨
    (|a.relevance - b.relevance| < SearchServer.EPSILON ∧ b.rating ≤ a.rating)

/-- The specification's ranking-order property of a whole result list. -/
noncomputable def rankedOk (l : List Document) : Prop :=
  l.Chain' rankedPair

/-- The default-constructed `SearchServer()`. -/
def emptyServer : SearchServer := ⟨[], [], [], []⟩

/-- Reachable server states: constructed with some stop-word container, then
extended by successful `AddDocument` calls. -/
inductive Reachable : SearchServer → Prop
  | init (stop_words : List String) (s : SearchServer) :
      mkSearchServer stop_words = .ok s → Reachable s
  | add (s s' : SearchServer) (id : DocumentId) (text : String)
      (status : DocumentStatus) (ratings : List Int) :
      Reachable s → s.AddDocument id text status ratings = .ok s' → Reachable s'

/-! ## Concrete data for counterexamples and witnesses

The `cex` development below realises three documents whose relevance values
for the one-word query "q" are pairwise distinct but within `EPSILON` of each
other: tf values `1/1000`, `1/999` and `2/1999` for the term "q", with
`idf = ln 2` (six documents total, three of them containing "q").  On this
reachable output the sort comparator holds in both directions between
documents 0 and 1 (document 1 wins on relevance, document 0 on the
epsilon-tie rating rule), so the comparator is not asymmetric — hence not
the strict weak order `std::sort` requires — and the sorted order of the
code at this state is not defined by the source. -/

/-- Character list consisting of `n` copies of the two characters space and
`c`; splitting it continues a word before it and yields `n` words `[c]`. -/
def charBlock (c : Char) : Nat → List Char
  | 0 => []
  | n + 1 => ' ' :: c :: charBlock c n

/-- Text of 1000 words: "q" then 999 copies of "f". -/
def cexText0 : String := String.mk ('q' :: charBlock 'f' 999)

/-- Text of 999 words: "q" then 998 copies of "g". -/
def cexText1 : String := String.mk ('q' :: charBlock 'g' 998)

/-- Text of 1999 words: "q", "q", then 1997 copies of "h". -/
def cexText2 : String := String.mk ('q' :: ' ' :: 'q' :: charBlock 'h' 1997)

def cexS1 : SearchServer :=
  ⟨[("f", [(0, 999/1000)]), ("q", [(0, 1/1000)])], [],
    [(0, (5, .ACTUAL))], [0]⟩

def cexS2 : SearchServer :=
  ⟨[("f", [(0, 999/1000)]), ("g", [(1, 998/999)]),
      ("q", [(0, 1/1000), (1, 1/999)])], [],
    [(0, (5, .ACTUAL)), (1, (0, .BANNED))], [0, 1]⟩

def cexS3 : SearchServer :=
  ⟨[("f", [(0, 999/1000)]), ("g", [(1, 998/999)]), ("h", [(2, 1997/1999)]),
      ("q", [(0, 1/1000), (1, 1/999), (2, 2/1999)])], [],
    [(0, (5, .ACTUAL)), (1, (0, .BANNED)), (2, (9, .ACTUAL))], [0, 1, 2]⟩

def cexS4 : SearchServer :=
  ⟨[("f", [(0, 999/1000)]), ("g", [(1, 998/999)]), ("h", [(2, 1997/1999)]),
      ("q", [(0, 1/1000), (1, 1/999), (2, 2/1999)]), ("z", [(3, 1)])], [],
    [(0, (5, .ACTUAL)), (1, (0, .BANNED)), (2, (9, .ACTUAL)),
      (3, (0, .ACTUAL))], [0, 1, 2, 3]⟩

def cexS5 : SearchServer :=
  ⟨[("f", [(0, 999/1000)]), ("g", [(1, 998/999)]), ("h", [(2, 1997/1999)]),
      ("q", [(0, 1/1000), (1, 1/999), (2, 2/1999)]), ("z", [(3, 1), (4, 1)])], [],
    [(0, (5, .ACTUAL)), (1, (0, .BANNED)), (2, (9, .ACTUAL)),
      (3, (0, .ACTUAL)), (4, (0, .ACTUAL))], [0, 1, 2, 3, 4]⟩

def cexS6 : SearchServer :=
  ⟨[("f", [(0, 999/1000)]), ("g", [(1, 998/999)]), ("h", [(2, 1997/1999)]),
      ("q", [(0, 1/1000), (1, 1/999), (2, 2/1999)]),
      ("z", [(3, 1), (4, 1), (5, 1)])], [],
    [(0, (5, .ACTUAL)), (1, (0, .BANNED)), (2, (9, .ACTUAL)),
      (3, (0, .ACTUAL)), (4, (0, .ACTUAL)), (5, (0, .ACTUAL))],
    [0, 1, 2, 3, 4, 5]⟩

noncomputable def cexD0 : Document := ⟨0, Real.log 2 * (1/1000 : ℝ), .ACTUAL, 5⟩

noncomputable def cexD1 : Document := ⟨1, Real.log 2 * (1/999 : ℝ), .BANNED, 0⟩

noncomputable def cexD2 : Document := ⟨2, Real.log 2 * (2/1999 : ℝ), .ACTUAL, 9⟩

/-- State holding the single document `0 ↦ "cat"`; used to exhibit the
`MatchDocument` failure on an absent minus-term. -/
def matchBugServer : SearchServer :=
  ⟨[("cat", [(0, 1)])], [], [(0, (1, .ACTUAL))], [0]⟩

/-- Freshly constructed server whose only stop word is "the". -/
def stopServer0 : SearchServer := ⟨[], ["the"], [], []⟩

/-- `stopServer0` after adding document 0 with the text "the", whose non-stop
word list is empty: the document is registered but owns no postings. -/
def stopServer1 : SearchServer := ⟨[], ["the"], [(0, (0, .ACTUAL))], [0]⟩

/-- `emptyServer` after adding document 0 with text "b a b" and ratings
`[7]`. -/
def rowWitnessServer : SearchServer :=
  ⟨[("a", [(0, 1/3)]), ("b", [(0, 2/3)])], [], [(0, (7, .ACTUAL))], [0]⟩

/-! ## Generic lemmas about the container models -/

section AlLemmas

variable {K V : Type} [LinearOrder K] [DecidableEq K]

theorem skey_cons {p : K × V} {m : List (K × V)} :
    SKey (p :: m) ↔ (∀ q ∈ m, p.1 < q.1) ∧ SKey m := by
  simp [SKey, List.pairwise_cons]

theorem alLookup_eq_none_of_forall_lt {m : List (K × V)} {k : K}
    (h : ∀ p ∈ m, k < p.1) : alLookup m k = none := by
  induction m with
  | nil => rfl
  | cons p rest ih =>
    obtain ⟨k', v⟩ := p
    simp only [alLookup]
    rw [if_neg (ne_of_lt (h (k', v) (List.mem_cons_self _ _)))]
    exact ih (fun q hq => h q (List.mem_cons_of_mem _ hq))

theorem fst_mem_of_mem_alBump {k : K} {f : Option V → V} {m : List (K × V)}
    {p : K × V} (h : p ∈ alBump k f m) : p.1 = k ∨ p.1 ∈ m.map Prod.fst := by
  induction m with
  | nil => simp only [alBump, List.mem_singleton] at h; left; rw [h]
  | cons q rest ih =>
    obtain ⟨k', v⟩ := q
    simp only [alBump] at h
    by_cases h1 : k = k'
    · rw [if_pos h1] at h
      rcases List.mem_cons.mp h with h2 | h2
      · left; rw [h2, h1]
      · right; exact List.mem_map_of_mem Prod.fst (List.mem_cons_of_mem _ h2)
    · rw [if_neg h1] at h
      by_cases h2 : k < k'
      · rw [if_pos h2] at h
        rcases List.mem_cons.mp h with h3 | h3
        · left; rw [h3]
        · right; exact List.mem_map_of_mem Prod.fst h3
      · rw [if_neg h2] at h
        rcases List.mem_cons.mp h with h3 | h3
        · right; rw [h3]; simp
        · rcases ih h3 with h4 | h4
          · left; exact h4
          · right; simp only [List.map_cons, List.mem_cons]; right; exact h4

theorem alBump_skey {k : K} {f : Option V → V} {m : List (K × V)}
    (h : SKey m) : SKey (alBump k f m) := by
  induction m with
  | nil => simp [alBump, SKey]
  | cons q rest ih =>
    obtain ⟨k', v⟩ := q
    rw [skey_cons] at h
    obtain ⟨hlt, hrest⟩ := h
    simp only [alBump]
    by_cases h1 : k = k'
    · rw [if_pos h1, skey_cons]; exact ⟨hlt, hrest⟩
    · rw [if_neg h1]
      by_cases h2 : k < k'
      · rw [if_pos h2, skey_cons, skey_cons]
        refine ⟨?_, hlt, hrest⟩
        intro q hq
        rcases List.mem_cons.mp hq with h3 | h3
        · rw [h3]; exact h2
        · exact lt_trans h2 (hlt q h3)
      · rw [if_neg h2, skey_cons]
        refine ⟨?_, ih hrest⟩
        intro q hq
        rcases fst_mem_of_mem_alBump hq with h3 | h3
        · rw [h3]; exact lt_of_le_of_ne (le_of_not_lt h2) (Ne.symm h1)
        · obtain ⟨p, hp, hpq⟩ := List.mem_map.mp h3
          rw [← hpq]; exact hlt p hp

theorem alBump_alLookup {k : K} {f : Option V → V} {m : List (K × V)}
    (h : SKey m) (j : K) :
    alLookup (alBump k f m) j =
      if j = k then some (f (alLookup m k)) else alLookup m j := by
  induction m with
  | nil => simp only [alBump, alLookup]
  | cons q rest ih =>
    obtain ⟨a, v⟩ := q
    rw [skey_cons] at h
    obtain ⟨hlt, hrest⟩ := h
    rcases lt_trichotomy k a with hka | hka | hka
    · have hne : k ≠ a := ne_of_lt hka
      have hrnone : alLookup rest k = none :=
        alLookup_eq_none_of_forall_lt (fun p hp => lt_trans hka (hlt p hp))
      rw [alBump, if_neg hne, if_pos hka]
      by_cases h3 : j = k
      · subst h3
        simp [alLookup, hne, hrnone]
      · simp [alLookup, h3]
    · subst hka
      rw [alBump, if_pos rfl]
      by_cases h3 : j = k
      · subst h3
        simp [alLookup]
      · simp [alLookup, h3]
    · have hne : k ≠ a := ne_of_gt hka
      have hne2 : ¬ k < a := not_lt_of_gt hka
      rw [alBump, if_neg hne, if_neg hne2]
      by_cases h3 : j = a
      · have h4 : j ≠ k := by rw [h3]; exact ne_of_lt hka
        have h5 : a ≠ k := ne_of_lt hka
        simp [alLookup, h3, h4, h5]
      · simp [alLookup, h3, ih hrest, hne]

theorem mem_of_mem_alErase {k : K} {m : List (K × V)} {p : K × V}
    (h : p ∈ alErase k m) : p ∈ m := by
  induction m with
  | nil => cases h
  | cons q rest ih =>
    obtain ⟨a, v⟩ := q
    rw [alErase] at h
    by_cases h1 : k = a
    · rw [if_pos h1] at h
      exact List.mem_cons_of_mem _ h
    · rw [if_neg h1] at h
      rcases List.mem_cons.mp h with h2 | h2
      · rw [h2]; exact List.mem_cons_self _ _
      · exact List.mem_cons_of_mem _ (ih h2)

theorem alErase_skey {k : K} {m : List (K × V)} (h : SKey m) :
    SKey (alErase k m) := by
  induction m with
  | nil => simp [alErase, SKey]
  | cons q rest ih =>
    obtain ⟨a, v⟩ := q
    rw [skey_cons] at h
    obtain ⟨hlt, hrest⟩ := h
    rw [alErase]
    by_cases h1 : k = a
    · rw [if_pos h1]; exact hrest
    · rw [if_neg h1, skey_cons]
      exact ⟨fun q hq => hlt q (mem_of_mem_alErase hq), ih hrest⟩

theorem alErase_alLookup {k : K} {m : List (K × V)} (h : SKey m) (j : K) :
    alLookup (alErase k m) j = if j = k then none else alLookup m j := by
  induction m with
  | nil => rw [alErase]; by_cases h3 : j = k <;> simp [alLookup, h3]
  | cons q rest ih =>
    obtain ⟨a, v⟩ := q
    rw [skey_cons] at h
    obtain ⟨hlt, hrest⟩ := h
    rw [alErase]
    by_cases h1 : k = a
    · subst h1
      rw [if_pos rfl]
      by_cases h3 : j = k
      · rw [if_pos h3, h3, alLookup_eq_none_of_forall_lt hlt]
      · rw [if_neg h3, alLookup, if_neg h3]
    · rw [if_neg h1]
      by_cases h3 : j = a
      · have h4 : j ≠ k := by rw [h3]; exact fun hc => h1 hc.symm
        have h5 : a ≠ k := fun hc => h1 hc.symm
        simp [alLookup, h3, h4, h5]
      · simp [alLookup, h3, ih hrest]

theorem alLookup_eq_some_of_mem {m : List (K × V)} {k : K} {v : V}
    (h : SKey m) (hm : (k, v) ∈ m) : alLookup m k = some v := by
  induction m with
  | nil => cases hm
  | cons q rest ih =>
    obtain ⟨a, w⟩ := q
    rw [skey_cons] at h
    obtain ⟨hlt, hrest⟩ := h
    rcases List.mem_cons.mp hm with h1 | h1
    · rw [Prod.mk.injEq] at h1
      obtain ⟨h1a, h1b⟩ := h1
      subst h1a
      subst h1b
      simp [alLookup]
    · have hne : k ≠ a := by
        have h2 := hlt _ h1
        exact fun hc => absurd h2 (by rw [hc]; exact lt_irrefl a)
      rw [alLookup, if_neg hne]
      exact ih hrest h1

theorem mem_of_alLookup_eq_some {m : List (K × V)} {k : K} {v : V}
    (h : alLookup m k = some v) : (k, v) ∈ m := by
  induction m with
  | nil => cases h
  | cons q rest ih =>
    obtain ⟨a, w⟩ := q
    rw [alLookup] at h
    by_cases h1 : k = a
    · rw [if_pos h1] at h
      injection h with h2
      subst h1
      subst h2
      exact List.mem_cons_self _ _
    · rw [if_neg h1] at h
      exact List.mem_cons_of_mem _ (ih h)

theorem mem_sInsert {k a : K} {l : List K} :
    a ∈ sInsert k l ↔ a = k ∨ a ∈ l := by
  induction l with
  | nil => simp [sInsert]
  | cons b rest ih =>
    rw [sInsert]
    by_cases h1 : k = b
    · subst h1
      rw [if_pos rfl]
      simp only [List.mem_cons]
      tauto
    · rw [if_neg h1]
      by_cases h2 : k < b
      · rw [if_pos h2]
        simp only [List.mem_cons]
      · rw [if_neg h2]
        simp only [List.mem_cons, ih]
        tauto

theorem sInsert_sorted {k : K} {l : List K} (h : l.Pairwise (· < ·)) :
    (sInsert k l).Pairwise (· < ·) := by
  induction l with
  | nil => simp [sInsert]
  | cons b rest ih =>
    rw [List.pairwise_cons] at h
    obtain ⟨hlt, hrest⟩ := h
    simp only [sInsert]
    by_cases h1 : k = b
    · rw [if_pos h1, List.pairwise_cons]; exact ⟨hlt, hrest⟩
    · rw [if_neg h1]
      by_cases h2 : k < b
      · rw [if_pos h2, List.pairwise_cons, List.pairwise_cons]
        refine ⟨?_, hlt, hrest⟩
        intro a ha
        rcases List.mem_cons.mp ha with h3 | h3
        · rw [h3]; exact h2
        · exact lt_trans h2 (hlt a h3)
      · rw [if_neg h2, List.pairwise_cons]
        refine ⟨?_, ih hrest⟩
        intro a ha
        rcases mem_sInsert.mp ha with h3 | h3
        · rw [h3]; exact lt_of_le_of_ne (le_of_not_lt h2) (fun hc => h1 hc.symm)
        · exact hlt a h3

end AlLemmas

/-! ## Characterisation of the relevance engine folds -/

namespace SearchServer

theorem postingSum_cons {p : DocumentId × ℚ} {ps : List (DocumentId × ℚ)}
    {d : DocumentId} :
    postingSum (p :: ps) d = (if p.1 = d then p.2 else 0) + postingSum ps d := by
  by_cases h : p.1 = d <;> simp [postingSum, List.filter_cons, h]

theorem postingSum_eq_zero {ps : List (DocumentId × ℚ)} {d : DocumentId}
    (h : ps.any (fun p => p.1 = d) = false) : postingSum ps d = 0 := by
  induction ps with
  | nil => rfl
  | cons p rest ih =>
    rw [List.any_cons, Bool.or_eq_false_iff] at h
    rw [postingSum_cons, if_neg (by simpa using h.1), ih h.2, zero_add]

theorem bumpRelFold_skey (idf : ℝ) (ps : List (DocumentId × ℚ))
    (m : List (DocumentId × ℝ)) (hm : SKey m) :
    SKey (ps.foldl (bumpRel idf) m) := by
  induction ps generalizing m with
  | nil => exact hm
  | cons p rest ih => exact ih _ (alBump_skey hm)

theorem bumpRelFold_lookup (idf : ℝ) (ps : List (DocumentId × ℚ)) :
    ∀ (m : List (DocumentId × ℝ)), SKey m → ∀ d,
    alLookup (ps.foldl (bumpRel idf) m) d
      = if ps.any (fun p => p.1 = d)
        then some ((alLookup m d).getD 0 + idf * (postingSum ps d : ℝ))
        else alLookup m d := by
  induction ps with
  | nil => intro m _ d; simp [postingSum]
  | cons p rest ih =>
    intro m hm d
    obtain ⟨d0, v0⟩ := p
    rw [List.foldl_cons]
    have hm1 : SKey (bumpRel idf m (d0, v0)) := alBump_skey hm
    rw [ih _ hm1 d]
    have hb : alLookup (bumpRel idf m (d0, v0)) d
        = if d = d0 then some ((alLookup m d0).getD 0 + idf * (v0 : ℝ))
          else alLookup m d := alBump_alLookup hm d
    by_cases hd : d = d0
    · subst hd
      rw [if_pos rfl] at hb
      have hpos : ((d, v0).1 = d) := rfl
      rw [hb, postingSum_cons, if_pos hpos]
      simp only [List.any_cons, decide_eq_true_eq, hpos, decide_True,
        Bool.true_or, if_true, Option.getD_some]
      by_cases hr : rest.any (fun p => p.1 = d)
      · rw [if_pos hr]
        push_cast
        congr 1
        ring
      · rw [if_neg hr,
          postingSum_eq_zero (Bool.of_not_eq_true hr), add_zero]
    · rw [if_neg hd] at hb
      have hne : ¬ ((d0, v0).1 = d) := fun h => hd h.symm
      rw [hb, postingSum_cons, if_neg hne, zero_add]
      simp only [List.any_cons, decide_eq_false hne, Bool.false_or]

theorem eraseFold_skey (ps : List (DocumentId × ℚ))
    (m : List (DocumentId × ℝ)) (hm : SKey m) :
    SKey (ps.foldl (fun m p => alErase p.1 m) m) := by
  induction ps generalizing m with
  | nil => exact hm
  | cons p rest ih => exact ih _ (alErase_skey hm)

theorem eraseFold_lookup (ps : List (DocumentId × ℚ)) :
    ∀ (m : List (DocumentId × ℝ)), SKey m → ∀ d,
    alLookup (ps.foldl (fun m p => alErase p.1 m) m) d
      = if ps.any (fun p => p.1 = d) then none else alLookup m d := by
  induction ps with
  | nil => intro m _ d; simp
  | cons p rest ih =>
    intro m hm d
    obtain ⟨d0, v0⟩ := p
    rw [List.foldl_cons, ih _ (alErase_skey hm) d]
    have hb : alLookup (alErase d0 m) d = if d = d0 then none else alLookup m d :=
      alErase_alLookup hm d
    by_cases hd : d = d0
    · subst hd
      have hpos : ((d, v0).1 = d) := rfl
      simp only [List.any_cons, decide_eq_true_eq, hpos, decide_True,
        Bool.true_or, if_true]
      by_cases hr : rest.any (fun p => p.1 = d)
      · rw [if_pos hr]
      · rw [if_neg hr, hb, if_pos rfl]
    · have hne : ¬ ((d0, v0).1 = d) := fun h => hd h.symm
      rw [hb, if_neg hd]
      simp only [List.any_cons, decide_eq_false hne, Bool.false_or]

theorem accTerm_skey (s : SearchServer) (m : List (DocumentId × ℝ))
    (word : Word) (hm : SKey m) : SKey (s.accTerm m word) := by
  rw [accTerm]
  cases alLookup s.tf_ word with
  | none => exact hm
  | some ps => exact bumpRelFold_skey _ ps m hm

theorem accTerm_lookup (s : SearchServer) (m : List (DocumentId × ℝ))
    (word : Word) (hm : SKey m) (d : DocumentId) :
    alLookup (s.accTerm m word) d
      = if s.termHits word d
        then some ((alLookup m d).getD 0 + s.termContribution word d)
        else alLookup m d := by
  rw [accTerm, termHits, termContribution]
  cases alLookup s.tf_ word with
  | none => simp
  | some ps => rw [bumpRelFold_lookup _ ps m hm d]

theorem termContribution_eq_zero (s : SearchServer) (word : Word)
    (d : DocumentId) (h : s.termHits word d = false) :
    s.termContribution word d = 0 := by
  rw [termHits] at h
  rw [termContribution]
  cases hl : alLookup s.tf_ word with
  | none => rfl
  | some ps =>
    rw [hl] at h
    have h' : ps.any (fun p => p.1 = d) = false := h
    show s.CalculateIDF ps.length * ((postingSum ps d : ℚ) : ℝ) = 0
    rw [postingSum_eq_zero h']
    simp

theorem plusFold_skey (s : SearchServer) (l : List Word)
    (m : List (DocumentId × ℝ)) (hm : SKey m) :
    SKey (l.foldl (s.accTerm) m) := by
  induction l generalizing m with
  | nil => exact hm
  | cons w rest ih => exact ih _ (accTerm_skey s m w hm)

theorem plusFold_lookup (s : SearchServer) (l : List Word) :
    ∀ (m : List (DocumentId × ℝ)), SKey m → ∀ d,
    alLookup (l.foldl (s.accTerm) m) d
      = if l.any (fun w => s.termHits w d)
        then some ((alLookup m d).getD 0
            + (l.map (fun w => s.termContribution w d)).sum)
        else alLookup m d := by
  induction l with
  | nil => intro m _ d; simp
  | cons w rest ih =>
    intro m hm d
    rw [List.foldl_cons, ih _ (accTerm_skey s m w hm) d,
      accTerm_lookup s m w hm d, List.map_cons, List.sum_cons, List.any_cons]
    by_cases hw : s.termHits w d
    · rw [if_pos hw, hw, Bool.true_or, if_pos rfl]
      by_cases hr : rest.any (fun w => s.termHits w d)
      · rw [if_pos hr]
        simp only [Option.getD_some]
        congr 1
        ring
      · rw [if_neg hr]
        have hz : (rest.map (fun w => s.termContribution w d)).sum = 0 := by
          refine List.sum_eq_zero ?_
          intro x hx
          obtain ⟨w', hw', hx'⟩ := List.mem_map.mp hx
          rw [← hx']
          refine termContribution_eq_zero s w' d ?_
          rcases Bool.eq_false_or_eq_true (s.termHits w' d) with h | h
          · exact absurd (List.any_eq_true.mpr ⟨w', hw', h⟩) hr
          · exact h
        rw [hz, add_zero]
    · have hwf : s.termHits w d = false := Bool.of_not_eq_true hw
      rw [if_neg hw, hwf, Bool.false_or,
        termContribution_eq_zero s w d hwf, zero_add]

theorem minusFold_lookup (s : SearchServer) (l : List Word) :
    ∀ (m : List (DocumentId × ℝ)), SKey m → ∀ d,
    alLookup (l.foldl (s.eraseTerm) m) d
      = if l.any (fun w => s.termHits w d) then none else alLookup m d := by
  induction l with
  | nil => intro m _ d; simp
  | cons w rest ih =>
    intro m hm d
    have hm1 : SKey (s.eraseTerm m w) := by
      rw [eraseTerm]
      cases alLookup s.tf_ w with
      | none => exact hm
      | some ps => exact eraseFold_skey ps m hm
    rw [List.foldl_cons, ih _ hm1 d, List.any_cons]
    have hb : alLookup (s.eraseTerm m w) d
        = if s.termHits w d then none else alLookup m d := by
      rw [eraseTerm, termHits]
      cases alLookup s.tf_ w with
      | none => simp
      | some ps => rw [eraseFold_lookup ps m hm d]
    by_cases hw : s.termHits w d
    · rw [hw, Bool.true_or, if_pos rfl]
      by_cases hr : rest.any (fun w => s.termHits w d)
      · rw [if_pos hr]
      · rw [if_neg hr, hb, if_pos hw]
    · have hwf : s.termHits w d = false := Bool.of_not_eq_true hw
      rw [hwf, Bool.false_or, hb, if_neg hw]

theorem skey_nil {K V : Type} [LinearOrder K] : SKey ([] : List (K × V)) :=
  List.Pairwise.nil

/-! ## Ordering properties of the insertion sort -/

theorem insertSorted_chain (x : Document) (l : List Document)
    (h : l.Chain' (fun a b => sortLt a b ∨ ¬ sortLt b a)) :
    (insertSorted x l).Chain' (fun a b => sortLt a b ∨ ¬ sortLt b a) := by
  induction l with
  | nil => simp [insertSorted]
  | cons y ys ih =>
    rw [insertSorted]
    by_cases hxy : sortLt x y
    · rw [if_pos hxy]
      exact List.Chain'.cons (Or.inl hxy) h
    · rw [if_neg hxy]
      rw [List.chain'_cons'] at h ⊢
      obtain ⟨hhead, htail⟩ := h
      refine ⟨?_, ih htail⟩
      intro b hb
      cases ys with
      | nil =>
        simp only [insertSorted, List.head?_cons, Option.mem_def,
          Option.some.injEq] at hb
        rw [← hb]
        exact Or.inr hxy
      | cons z zs =>
        rw [insertSorted] at hb
        by_cases hxz : sortLt x z
        · rw [if_pos hxz] at hb
          simp only [List.head?_cons, Option.mem_def, Option.some.injEq] at hb
          rw [← hb]
          exact Or.inr hxy
        · rw [if_neg hxz] at hb
          simp only [List.head?_cons, Option.mem_def, Option.some.injEq] at hb
          rw [← hb]
          exact hhead z (by simp)

theorem sortDocs_chain (l : List Document) :
    (sortDocs l).Chain' (fun a b => sortLt a b ∨ ¬ sortLt b a) := by
  induction l with
  | nil => simp [sortDocs]
  | cons x xs ih => exact insertSorted_chain x (sortDocs xs) ih

theorem epsilon_pos : (0 : ℝ) < EPSILON := by
  rw [EPSILON]; norm_num

end SearchServer

theorem rankedPair_of_adjacent (a b : Document)
    (h : SearchServer.sortLt a b ∨ ¬ SearchServer.sortLt b a) :
    rankedPair a b := by
  rw [SearchServer.sortLt] at h
  rw [rankedPair]
  rcases h with h | h
  · rcases h with h | ⟨h1, h2⟩
    · exact Or.inl h
    · exact Or.inr ⟨h1, le_of_lt h2⟩
  · rw [SearchServer.sortLt] at h
    push_neg at h
    obtain ⟨h1, h2⟩ := h
    rcases lt_or_eq_of_le h1 with h3 | h3
    · exact Or.inl h3
    · have h4 : |a.relevance - b.relevance| < SearchServer.EPSILON := by
        rw [h3]
        simpa using SearchServer.epsilon_pos
      have h5 : |b.relevance - a.relevance| < SearchServer.EPSILON := by
        rw [abs_sub_comm]
        exact h4
      exact Or.inr ⟨h4, h2 h5⟩

theorem rankedOk_sortDocs (l : List Document) :
    rankedOk (SearchServer.sortDocs l) := by
  rw [rankedOk]
  exact List.Chain'.imp (fun a b h => rankedPair_of_adjacent a b h)
    (SearchServer.sortDocs_chain l)

namespace SearchServer

/-- C1: for every index state, every parsed query and every document, the
relevance map computed by `FindAllDocuments` holds the document exactly when
some plus-term present in the inverted index posts it and no minus-term
present in the index posts it (exclusion is applied after all plus-term
accumulation and removes the document entirely); the accumulated value is the
sum over the plus-terms of `idf * tf` with
`idf = ln(total_document_count / number_of_documents_containing_term)`
(see `termContribution` and `CalculateIDF`); plus-terms absent from the index
contribute nothing and cause no error. -/
theorem C1_relevance_engine (s : SearchServer) (q : Query) (d : DocumentId) :
    alLookup (s.FindAllRelevance q) d
      = if q.minus_words.any (fun w => s.termHits w d) then none
        else if q.plus_words.any (fun w => s.termHits w d)
          then some ((q.plus_words.map (fun w => s.termContribution w d)).sum)
          else none := by
  have hsk : SKey (s.plusPhase q.plus_words) := by
    rw [plusPhase]
    exact plusFold_skey s _ _ skey_nil
  rw [FindAllRelevance, minusPhase,
    minusFold_lookup s q.minus_words (s.plusPhase q.plus_words) hsk d,
    plusPhase, plusFold_lookup s q.plus_words [] skey_nil d]
  simp only [alLookup, Option.getD_none, zero_add]

/-- C5: the top-level query operation returns at most
`MAX_RESULT_DOCUMENT_COUNT = 5` results, whatever the state, query text and
predicate. -/
theorem C5_result_cap (s : SearchServer) (raw_query : String)
    (filter : DocumentId → DocumentStatus → Int → Bool) :
    okLength (s.FindTopDocuments raw_query filter) ≤ MAX_RESULT_DOCUMENT_COUNT := by
  rw [FindTopDocuments]
  cases hq : s.ParseQuery raw_query with
  | error e => simp [okLength, Bind.bind, Except.bind]
  | ok q =>
    cases hd : s.FindAllDocuments q with
    | error e =>
      simp [okLength, Bind.bind, Except.bind, hd]
    | ok ds =>
      simp only [Bind.bind, Except.bind, hd]
      split
      · simp only [okLength, pure, Except.pure, List.length_take]
        exact Nat.min_le_left _ _
      · rename_i hlen
        simp only [okLength, pure, Except.pure]
        simp only [MAX_RESULT_DOCUMENT_COUNT] at hlen ⊢
        omega

/-- C2: `AddDocument` fails (with `InvalidDocument`) precisely when the id is
negative, the id is already registered, or the text contains a control
character.  The source checks all three conditions before any mutation, so a
failing call leaves every component of the state unchanged; in the model this
is structural, as the error branch returns no state at all. -/
theorem C2_add_validation (s : SearchServer) (document_id : DocumentId)
    (document : String) (status : DocumentStatus) (ratings : List Int) :
    s.AddDocument document_id document status ratings = .error .invalidDocument
      ↔ (document_id < 0 ∨
          (alLookup s.document_id_to_rating_and_rating_ document_id).isSome ∨
          IsInvalid document) := by
  rw [AddDocument]
  by_cases h : document_id < 0 ∨
      (alLookup s.document_id_to_rating_and_rating_ document_id).isSome ∨
      IsInvalid document
  · rw [if_pos h]
    exact iff_of_true rfl h
  · rw [if_neg h]
    exact iff_of_false (by simp) h

/-- C3: evaluation of the code at the failing input.  After adding the single
document `0 ↦ "cat"`, matching the valid query "cat -dog" against the
registered document 0 raises the `std::out_of_range` of `tf_.at("dog")`
(modelled `.missingTerm`), because the minus-word loop of `MatchDocument`
calls `tf_.at(word)` without the `tf_.count(word)` guard that the plus-word
loop has.  This failure is neither `InvalidQuery` nor `UnknownDocument`,
contradicting the claim (and §4.5 of the specification, which the plus-word
guard shows to be the intent). -/
theorem C3_match_missing_minus_term_failure :
    emptyServer.AddDocument 0 "cat" .ACTUAL [1] = .ok matchBugServer ∧
    matchBugServer.MatchDocument "cat -dog" 0 = .error .missingTerm := by
  constructor
  · rw [AddDocument, if_neg (by decide)]
    have hw : emptyServer.SplitIntoWordsNoStop "cat" = ["cat"] := by rfl
    simp only [hw]
    rw [matchBugServer]
    norm_num [tfBump, alBump, alLookup, ComputeAverageRating, emptyServer]
  · rfl

/-- C6 counterexample: on the ratings list `[-3, -4]` the code stores
`-3` (C++ `int` division truncates toward zero), not the floor
`fdiv (-7) 2 = -4` demanded by the claim. -/
theorem C6_floor_division_counterexample :
    ComputeAverageRating [-3, -4] ≠
      Int.fdiv (([-3, -4] : List Int).sum) (([-3, -4] : List Int).length : Int) := by
  decide

/-- C6 amended: the stored rating is the truncated-toward-zero division of
the sum of the ratings by their count (0 for an empty list); it agrees with
floor division exactly on the nonnegative sums. -/
theorem C6_average_rating_amended (ratings : List Int) :
    (ratings = [] → ComputeAverageRating ratings = 0) ∧
    ComputeAverageRating ratings =
      (if ratings.isEmpty then 0 else Int.tdiv ratings.sum (ratings.length : Int)) ∧
    (0 ≤ ratings.sum →
      ComputeAverageRating ratings = Int.fdiv ratings.sum (ratings.length : Int)) := by
  have hmain : ComputeAverageRating ratings =
      (if ratings.isEmpty then 0 else Int.tdiv ratings.sum (ratings.length : Int)) := by
    rw [ComputeAverageRating, List.sum_eq_foldl]
  refine ⟨?_, hmain, ?_⟩
  · intro h
    subst h
    rfl
  · intro hs
    rw [hmain]
    cases ratings with
    | nil => rfl
    | cons r rest =>
      rw [if_neg (by simp)]
      exact (Int.fdiv_eq_tdiv hs (Int.ofNat_nonneg _)).symm

/-- C6 witness: on the ratings `[1, 5]` the hypotheses of the amended claim
hold and the stored rating is the floor of the average. -/
theorem C6_average_rating_amended_witness :
    ComputeAverageRating [1, 5] =
      Int.fdiv (([1, 5] : List Int).sum) (([1, 5] : List Int).length : Int) :=
  (C6_average_rating_amended [1, 5]).2.2 (by decide)

/-- C7 counterexample: parsing the raw query "x -x" (no stop words) puts the
term "x" into the plus set and into the minus set, so the two sets of a
successfully parsed query are not always disjoint. -/
theorem C7_disjoint_counterexample :
    emptyServer.ParseQuery "x -x" = .ok ⟨["x"], ["x"]⟩ ∧
    "x" ∈ (Query.mk ["x"] ["x"]).plus_words ∧
    "x" ∈ (Query.mk ["x"] ["x"]).minus_words := by
  refine ⟨rfl, ?_, ?_⟩ <;> simp

theorem ParseQueryWord_shape (s : SearchServer) (t : Word) (qw : QueryWord)
    (h : s.ParseQueryWord t = .ok qw) :
    (qw.is_minus = false ∧ qw.data = t) ∨
    (qw.is_minus = true ∧ t = String.mk ('-' :: qw.data.data)) := by
  obtain ⟨td⟩ := t
  rw [ParseQueryWord] at h
  by_cases hi : IsInvalid (String.mk td)
  · rw [if_pos hi] at h
    cases h
  · rw [if_neg hi] at h
    split at h
    · rename_i rest heq
      split at h
      · cases h
      · injection h with h1
        subst h1
        refine Or.inr ⟨rfl, ?_⟩
        have hd : (String.mk td).data = td := rfl
        rw [hd] at heq
        rw [heq]
    · injection h with h1
      subst h1
      exact Or.inl ⟨rfl, rfl⟩

theorem parseStep_cases (s : SearchServer) (q0 : Query) (t : Word) (q1 : Query)
    (h : s.parseStep q0 t = .ok q1) :
    q1 = q0 ∨
    (∃ w, q1 = ⟨q0.plus_words, sInsert w q0.minus_words⟩ ∧
      t = String.mk ('-' :: w.data)) ∨
    (∃ w, q1 = ⟨sInsert w q0.plus_words, q0.minus_words⟩ ∧ w = t) := by
  rw [parseStep] at h
  cases hp : s.ParseQueryWord t with
  | error e =>
    rw [hp] at h
    cases h
  | ok qw =>
    rw [hp] at h
    simp only [Bind.bind, Except.bind] at h
    by_cases hstop : qw.is_stop
    · rw [if_pos hstop] at h
      injection h with h1
      exact Or.inl h1.symm
    · rw [if_neg hstop] at h
      rcases ParseQueryWord_shape s t qw hp with ⟨hm, hdata⟩ | ⟨hm, hdata⟩
      · rw [hm] at h
        simp only [Bool.false_eq_true, if_false, pure, Except.pure] at h
        injection h with h1
        exact Or.inr (Or.inr ⟨qw.data, h1.symm, hdata⟩)
      · rw [hm] at h
        simp only [if_true, pure, Except.pure] at h
        injection h with h1
        exact Or.inr (Or.inl ⟨qw.data, h1.symm, hdata⟩)

theorem parse_fold_mem (s : SearchServer) (l : List Word) :
    ∀ q0 q : Query, l.foldlM (s.parseStep) q0 = .ok q →
      (∀ w, w ∈ q.plus_words → w ∈ q0.plus_words ∨ w ∈ l) ∧
      (∀ w, w ∈ q.minus_words →
        w ∈ q0.minus_words ∨ String.mk ('-' :: w.data) ∈ l) := by
  induction l with
  | nil =>
    intro q0 q h
    injection h with h1
    subst h1
    exact ⟨fun w hw => Or.inl hw, fun w hw => Or.inl hw⟩
  | cons t rest ih =>
    intro q0 q h
    rw [List.foldlM_cons] at h
    cases hp : s.parseStep q0 t with
    | error e =>
      rw [hp] at h
      cases h
    | ok q1 =>
      rw [hp] at h
      simp only [Bind.bind, Except.bind] at h
      obtain ⟨ihp, ihm⟩ := ih q1 q h
      rcases parseStep_cases s q0 t q1 hp with h1 | ⟨w0, h1, ht⟩ | ⟨w0, h1, ht⟩
      · subst h1
        constructor
        · intro w hw
          rcases ihp w hw with h2 | h2
          · exact Or.inl h2
          · exact Or.inr (List.mem_cons_of_mem _ h2)
        · intro w hw
          rcases ihm w hw with h2 | h2
          · exact Or.inl h2
          · exact Or.inr (List.mem_cons_of_mem _ h2)
      · subst h1
        constructor
        · intro w hw
          rcases ihp w hw with h2 | h2
          · exact Or.inl h2
          · exact Or.inr (List.mem_cons_of_mem _ h2)
        · intro w hw
          rcases ihm w hw with h2 | h2
          · rcases mem_sInsert.mp h2 with h3 | h3
            · subst h3
              rw [← ht]
              exact Or.inr (List.mem_cons_self _ _)
            · exact Or.inl h3
          · exact Or.inr (List.mem_cons_of_mem _ h2)
      · subst h1
        constructor
        · intro w hw
          rcases ihp w hw with h2 | h2
          · rcases mem_sInsert.mp h2 with h3 | h3
            · subst ht
              subst h3
              exact Or.inr (List.mem_cons_self _ _)
            · exact Or.inl h3
          · exact Or.inr (List.mem_cons_of_mem _ h2)
        · intro w hw
          rcases ihm w hw with h2 | h2
          · exact Or.inl h2
          · exact Or.inr (List.mem_cons_of_mem _ h2)

/-- C7 amended: a term reaches the minus set only through a token of the form
"-term" and the plus set only through a bare token, so the plus and minus
sets of a parsed query are disjoint whenever no term occurs both bare and
minus-prefixed among the query's non-stop tokens — but not in general, as the
query "x -x" shows. -/
theorem C7_disjoint_amended (s : SearchServer) (text : String) (q : Query)
    (h : s.ParseQuery text = .ok q)
    (hsep : ∀ w : Word, w ∈ s.SplitIntoWordsNoStop text →
      String.mk ('-' :: w.data) ∉ s.SplitIntoWordsNoStop text) :
    ∀ w, w ∈ q.plus_words → w ∉ q.minus_words := by
  rw [ParseQuery] at h
  obtain ⟨hplus, hminus⟩ := parse_fold_mem s (s.SplitIntoWordsNoStop text) ⟨[], []⟩ q h
  intro w hw hw2
  rcases hplus w hw with h1 | h1
  · cases h1
  · rcases hminus w hw2 with h2 | h2
    · cases h2
    · exact hsep w h1 h2

/-- C7 amended witness: the query "a -b" parses to plus `{"a"}` and minus
`{"b"}`, and its plus-term "a" is indeed not a minus-term. -/
theorem C7_disjoint_amended_witness :
    emptyServer.ParseQuery "a -b" = .ok ⟨["a"], ["b"]⟩ ∧
      "a" ∉ (Query.mk ["a"] ["b"]).minus_words :=
  ⟨rfl, C7_disjoint_amended emptyServer "a -b" ⟨["a"], ["b"]⟩ rfl (by decide)
    "a" (by decide)⟩

end SearchServer

/-! ## Further container lemmas for the reachability invariant -/

section AlExtra

variable {K V : Type} [LinearOrder K] [DecidableEq K]

theorem alBump_lookup_const {k : K} {x : V} (m : List (K × V)) :
    alLookup (alBump k (fun _ => x) m) k = some x := by
  induction m with
  | nil => simp [alBump, alLookup]
  | cons q rest ih =>
    obtain ⟨a, v⟩ := q
    rw [alBump]
    by_cases h1 : k = a
    · rw [if_pos h1, alLookup, if_pos h1]
    · rw [if_neg h1]
      by_cases h2 : k < a
      · rw [if_pos h2, alLookup, if_pos rfl]
      · rw [if_neg h2, alLookup, if_neg h1]
        exact ih

theorem mem_alBump_val {k : K} {f : Option V → V} {m : List (K × V)}
    {p : K × V} (h : p ∈ alBump k f m) :
    p ∈ m ∨ (p.1 = k ∧ (p.2 = f none ∨ ∃ v, (k, v) ∈ m ∧ p.2 = f (some v))) := by
  induction m with
  | nil =>
    simp only [alBump, List.mem_singleton] at h
    right
    rw [h]
    exact ⟨rfl, Or.inl rfl⟩
  | cons q rest ih =>
    obtain ⟨a, v⟩ := q
    rw [alBump] at h
    by_cases h1 : k = a
    · rw [if_pos h1] at h
      rcases List.mem_cons.mp h with h2 | h2
      · right
        rw [h2]
        exact ⟨h1.symm, Or.inr ⟨v, by rw [h1]; exact List.mem_cons_self _ _, rfl⟩⟩
      · exact Or.inl (List.mem_cons_of_mem _ h2)
    · rw [if_neg h1] at h
      by_cases h2 : k < a
      · rw [if_pos h2] at h
        rcases List.mem_cons.mp h with h3 | h3
        · right
          rw [h3]
          exact ⟨rfl, Or.inl rfl⟩
        · exact Or.inl h3
      · rw [if_neg h2] at h
        rcases List.mem_cons.mp h with h3 | h3
        · exact Or.inl (by rw [h3]; exact List.mem_cons_self _ _)
        · rcases ih h3 with h4 | ⟨h4a, h4b⟩
          · exact Or.inl (List.mem_cons_of_mem _ h4)
          · right
            refine ⟨h4a, ?_⟩
            rcases h4b with h5 | ⟨v', hv', h5⟩
            · exact Or.inl h5
            · exact Or.inr ⟨v', List.mem_cons_of_mem _ hv', h5⟩

theorem alExt {m₁ m₂ : List (K × V)} (h₁ : SKey m₁) (h₂ : SKey m₂)
    (h : ∀ k, alLookup m₁ k = alLookup m₂ k) : m₁ = m₂ := by
  induction m₁ generalizing m₂ with
  | nil =>
    cases m₂ with
    | nil => rfl
    | cons q rest =>
      obtain ⟨a, v⟩ := q
      have ha := h a
      simp [alLookup] at ha
  | cons q rest ih =>
    obtain ⟨a, v⟩ := q
    cases m₂ with
    | nil =>
      have ha := h a
      simp [alLookup] at ha
    | cons q2 rest2 =>
      obtain ⟨b, w⟩ := q2
      rw [skey_cons] at h₁ h₂
      obtain ⟨hlt1, hrest1⟩ := h₁
      obtain ⟨hlt2, hrest2⟩ := h₂
      have hab : a = b := by
        by_contra hne
        rcases lt_or_gt_of_ne hne with hl | hl
        · have ha := h a
          have h0 : alLookup ((b, w) :: rest2) a = none := by
            rw [alLookup, if_neg hne]
            exact alLookup_eq_none_of_forall_lt
              (fun p hp => lt_trans hl (hlt2 p hp))
          rw [h0] at ha
          simp [alLookup] at ha
        · have hb := h b
          have h0 : alLookup ((a, v) :: rest) b = none := by
            rw [alLookup, if_neg (ne_of_lt hl)]
            exact alLookup_eq_none_of_forall_lt
              (fun p hp => lt_trans hl (hlt1 p hp))
          rw [h0] at hb
          simp [alLookup] at hb
      subst hab
      have hv : v = w := by
        have heq := h a
        rw [alLookup, if_pos rfl, alLookup, if_pos rfl] at heq
        injection heq
      subst hv
      congr 1
      refine ih hrest1 hrest2 ?_
      intro k
      by_cases hk : k = a
      · subst hk
        rw [alLookup_eq_none_of_forall_lt hlt1,
          alLookup_eq_none_of_forall_lt hlt2]
      · have heq := h k
        rw [alLookup, if_neg hk, alLookup, if_neg hk] at heq
        exact heq

theorem alLookup_map_self (g : K → V) (l : List K) (x : K) :
    alLookup (l.map (fun w => (w, g w))) x
      = if x ∈ l then some (g x) else none := by
  induction l with
  | nil => simp [alLookup]
  | cons a rest ih =>
    rw [List.map_cons, alLookup]
    by_cases hx : x = a
    · subst hx
      simp
    · rw [if_neg hx, ih]
      by_cases h2 : x ∈ rest
      · rw [if_pos h2, if_pos (List.mem_cons_of_mem _ h2)]
      · rw [if_neg h2, if_neg (by simp [hx, h2])]

end AlExtra

/-! ## The canonical tf row of a word list -/

theorem mem_sortedKeys_aux (l : List Word) :
    ∀ (acc : List Word) (x : Word),
      x ∈ l.foldl (fun acc w => sInsert w acc) acc ↔ x ∈ acc ∨ x ∈ l := by
  induction l with
  | nil => simp
  | cons w rest ih =>
    intro acc x
    rw [List.foldl_cons, ih, mem_sInsert]
    simp only [List.mem_cons]
    tauto

theorem mem_sortedKeys (ws : List Word) (x : Word) :
    x ∈ sortedKeys ws ↔ x ∈ ws := by
  rw [sortedKeys, mem_sortedKeys_aux]
  simp

theorem sortedKeys_sorted_aux (l : List Word) :
    ∀ acc : List Word, acc.Pairwise (· < ·) →
      (l.foldl (fun acc w => sInsert w acc) acc).Pairwise (· < ·) := by
  induction l with
  | nil => exact fun acc h => h
  | cons w rest ih =>
    intro acc hacc
    rw [List.foldl_cons]
    exact ih _ (sInsert_sorted hacc)

theorem sortedKeys_sorted (ws : List Word) :
    (sortedKeys ws).Pairwise (· < ·) :=
  sortedKeys_sorted_aux ws [] List.Pairwise.nil

theorem sortedKeys_nodup (ws : List Word) : (sortedKeys ws).Nodup :=
  (sortedKeys_sorted ws).imp ne_of_lt

theorem canonRow_skey (ws : List Word) : SKey (canonRow ws) := by
  rw [canonRow, SKey]
  exact List.Pairwise.map _ (fun a b hab => hab) (sortedKeys_sorted ws)

theorem canonRow_alLookup (ws : List Word) (w : Word) :
    alLookup (canonRow ws) w
      = if w ∈ ws then some ((ws.count w : ℚ) / (ws.length : ℚ)) else none := by
  rw [canonRow]
  refine (alLookup_map_self (fun w => (ws.count w : ℚ) / (ws.length : ℚ))
    (sortedKeys ws) w).trans ?_
  by_cases h : w ∈ sortedKeys ws
  · rw [if_pos h, if_pos ((mem_sortedKeys ws w).mp h)]
  · rw [if_neg h, if_neg (fun hc => h ((mem_sortedKeys ws w).mpr hc))]

theorem canonRow_pos (ws : List Word) (hne : ws ≠ []) :
    ∀ p ∈ canonRow ws, 0 < p.2 := by
  intro p hp
  rw [canonRow] at hp
  obtain ⟨w, hw, hmap⟩ := List.mem_map.mp hp
  rw [← hmap]
  have hcount : 0 < ws.count w :=
    List.count_pos_iff.mpr ((mem_sortedKeys ws w).mp hw)
  have hlen : 0 < ws.length := List.length_pos.mpr hne
  have hc : (0 : ℚ) < (ws.count w : ℚ) := by exact_mod_cast hcount
  have hl : (0 : ℚ) < (ws.length : ℚ) := by exact_mod_cast hlen
  exact div_pos hc hl

theorem list_map_sum_div {α : Type} (l : List α) (f : α → ℚ) (c : ℚ) :
    (l.map (fun x => f x / c)).sum = (l.map f).sum / c := by
  induction l with
  | nil => simp
  | cons a rest ih => simp [ih, add_div]

theorem list_map_natCast_sum {α : Type} (l : List α) (f : α → ℕ) :
    (l.map (fun x => (f x : ℚ))).sum = ((l.map f).sum : ℚ) := by
  induction l with
  | nil => simp
  | cons a rest ih => simp [ih]

theorem canonRow_sum (ws : List Word) (hne : ws ≠ []) :
    ((canonRow ws).map (fun p => p.2)).sum = 1 := by
  rw [canonRow, List.map_map]
  show (List.map (fun w => (ws.count w : ℚ) / (ws.length : ℚ)) (sortedKeys ws)).sum = 1
  have hperm : List.Perm (sortedKeys ws) ws.dedup := by
    refine (List.perm_ext_iff_of_nodup (sortedKeys_nodup ws) ws.nodup_dedup).mpr ?_
    intro a
    rw [mem_sortedKeys, List.mem_dedup]
  rw [List.Perm.sum_eq
    (hperm.map (fun w => (ws.count w : ℚ) / (ws.length : ℚ))),
    list_map_sum_div ws.dedup (fun w => (ws.count w : ℚ)) (ws.length : ℚ),
    list_map_natCast_sum ws.dedup (fun w => ws.count w),
    List.sum_map_count_dedup_eq_length]
  have hlen : (ws.length : ℚ) ≠ 0 := by
    have h0 : 0 < ws.length := List.length_pos.mpr hne
    exact_mod_cast Nat.pos_iff_ne_zero.mp h0
  exact div_self hlen

/-! ## The document row under tf updates -/

namespace SearchServer

theorem rowList_alLookup (tf : List (Word × List (DocumentId × ℚ)))
    (htf : SKey tf) (d : DocumentId) (w : Word) :
    alLookup (tf.filterMap (fun p => (alLookup p.2 d).map (fun v => (p.1, v)))) w
      = (alLookup tf w).bind (fun ps => alLookup ps d) := by
  induction tf with
  | nil => rfl
  | cons q rest ih =>
    obtain ⟨a, ps⟩ := q
    rw [skey_cons] at htf
    obtain ⟨hlt, hrest⟩ := htf
    cases hv : alLookup ps d with
    | none =>
      rw [List.filterMap_cons]
      simp only [hv, Option.map_none']
      rw [ih hrest]
      by_cases hw : w = a
      · subst hw
        rw [alLookup, if_pos rfl,
          alLookup_eq_none_of_forall_lt hlt]
        simp [hv]
      · rw [alLookup, if_neg hw]
    | some v =>
      rw [List.filterMap_cons]
      simp only [hv, Option.map_some']
      by_cases hw : w = a
      · rw [alLookup, if_pos hw, alLookup, if_pos hw]
        simp [hv]
      · rw [alLookup, if_neg hw, alLookup, if_neg hw, ih hrest]

theorem rowOf_alLookup (s : SearchServer) (h : SKey s.tf_) (d : DocumentId)
    (w : Word) : alLookup (s.rowOf d) w = s.rowLookup w d := by
  rw [rowOf, rowLookup]
  exact rowList_alLookup s.tf_ h d w

theorem rowOf_skey (s : SearchServer) (h : SKey s.tf_) (d : DocumentId) :
    SKey (s.rowOf d) := by
  rw [rowOf, SKey]
  refine List.Pairwise.filterMap _ ?_ h
  intro a a' hr b hb b' hb'
  rw [Option.mem_def, Option.map_eq_some'] at hb hb'
  obtain ⟨v, hv, hbv⟩ := hb
  obtain ⟨v', hv', hbv'⟩ := hb'
  rw [← hbv, ← hbv']
  exact hr

theorem rowOf_eq_nil (s : SearchServer) (h : SKey s.tf_) (d : DocumentId)
    (hall : ∀ w, s.rowLookup w d = none) : s.rowOf d = [] := by
  refine alExt (rowOf_skey s h d) skey_nil ?_
  intro w
  rw [rowOf_alLookup s h d w, hall w]
  rfl

theorem tfBump_skey (word : Word) (id : DocumentId) (step : ℚ)
    {m : List (Word × List (DocumentId × ℚ))} (hm : SKey m) :
    SKey (tfBump word id step m) :=
  alBump_skey hm

theorem tfBump_inner_skey (word : Word) (id : DocumentId) (step : ℚ)
    {m : List (Word × List (DocumentId × ℚ))}
    (hin : ∀ p ∈ m, SKey p.2) :
    ∀ p ∈ tfBump word id step m, SKey p.2 := by
  intro p hp
  rcases mem_alBump_val hp with h | ⟨h1, h2⟩
  · exact hin p h
  · rcases h2 with h2 | ⟨v, hv, h2⟩
    · rw [h2]
      exact alBump_skey skey_nil
    · rw [h2]
      exact alBump_skey (hin (word, v) hv)

theorem tfBump_rowLookup (word : Word) (id : DocumentId) (step : ℚ)
    {m : List (Word × List (DocumentId × ℚ))}
    (hm : SKey m) (hin : ∀ p ∈ m, SKey p.2) (w : Word) (d : DocumentId) :
    (alLookup (tfBump word id step m) w).bind (fun ps => alLookup ps d)
      = if w = word ∧ d = id
        then some ((((alLookup m word).bind (fun ps => alLookup ps id)).getD 0) + step)
        else (alLookup m w).bind (fun ps => alLookup ps d) := by
  rw [tfBump, alBump_alLookup hm w]
  by_cases hw : w = word
  · rw [if_pos hw]
    have hsk : SKey ((alLookup m word).getD []) := by
      cases hl : alLookup m word with
      | none => exact skey_nil
      | some ps => exact hin (word, ps) (mem_of_alLookup_eq_some hl)
    rw [Option.some_bind, alBump_alLookup hsk d]
    by_cases hd : d = id
    · rw [if_pos hd, if_pos ⟨hw, hd⟩]
      congr 1
      cases hl : alLookup m word with
      | none => simp [alLookup]
      | some ps => simp [alLookup]
    · rw [if_neg hd, if_neg (fun hc => hd hc.2)]
      subst hw
      cases hl : alLookup m w with
      | none => simp [alLookup]
      | some ps => simp [alLookup]
  · rw [if_neg hw, if_neg (fun hc => hw hc.1)]

theorem tfFold_skey (ws : List Word) (id : DocumentId) (step : ℚ) :
    ∀ m : List (Word × List (DocumentId × ℚ)), SKey m →
      SKey (ws.foldl (fun m w => tfBump w id step m) m) := by
  induction ws with
  | nil => exact fun m hm => hm
  | cons w rest ih => exact fun m hm => ih _ (tfBump_skey w id step hm)

theorem tfFold_inner_skey (ws : List Word) (id : DocumentId) (step : ℚ) :
    ∀ m : List (Word × List (DocumentId × ℚ)), (∀ p ∈ m, SKey p.2) →
      ∀ p ∈ ws.foldl (fun m w => tfBump w id step m) m, SKey p.2 := by
  induction ws with
  | nil => exact fun m hm => hm
  | cons w rest ih => exact fun m hm => ih _ (tfBump_inner_skey w id step hm)

theorem tfFold_rowLookup (ws : List Word) (id : DocumentId) (step : ℚ) :
    ∀ m : List (Word × List (DocumentId × ℚ)), SKey m → (∀ p ∈ m, SKey p.2) →
      ∀ (w : Word) (d : DocumentId),
    (alLookup (ws.foldl (fun m w => tfBump w id step m) m) w).bind
        (fun ps => alLookup ps d)
      = if d = id ∧ 0 < ws.count w
        then some ((((alLookup m w).bind (fun ps => alLookup ps id)).getD 0)
            + ws.count w * step)
        else (alLookup m w).bind (fun ps => alLookup ps d) := by
  induction ws with
  | nil =>
    intro m _ _ w d
    simp
  | cons w0 rest ih =>
    intro m hm hin w d
    rw [List.foldl_cons,
      ih _ (tfBump_skey w0 id step hm) (tfBump_inner_skey w0 id step hin) w d]
    have hb := tfBump_rowLookup w0 id step hm hin w d
    have hbid := tfBump_rowLookup w0 id step hm hin w id
    by_cases hw : w = w0
    · subst hw
      rw [List.count_cons_self]
      by_cases hd : d = id
      · subst hd
        rw [if_pos ⟨rfl, rfl⟩] at hb
        by_cases hr : 0 < rest.count w
        · rw [if_pos ⟨rfl, hr⟩, hb, if_pos ⟨rfl, by omega⟩]
          simp only [Option.getD_some]
          congr 1
          push_cast
          ring
        · rw [if_neg (fun hc => hr hc.2), hb, if_pos ⟨rfl, by omega⟩]
          have hzero : rest.count w = 0 := Nat.eq_zero_of_not_pos hr
          rw [hzero]
          congr 1
          push_cast
          ring
      · rw [if_neg (fun hc => hd hc.1), if_neg (fun hc => hd hc.1)]
        rw [if_neg (fun hc => hd hc.2)] at hb
        exact hb
    · rw [List.count_cons_of_ne (fun hc => hw hc)]
      rw [if_neg (fun hc => hw hc.1)] at hb
      rw [if_neg (fun hc => hw hc.1)] at hbid
      by_cases hcond : d = id ∧ 0 < rest.count w
      · rw [if_pos hcond, if_pos hcond, hbid]
      · rw [if_neg hcond, if_neg hcond, hb]

theorem tfFold_key_lookup (ws : List Word) (id : DocumentId) (step : ℚ) :
    ∀ m : List (Word × List (DocumentId × ℚ)), SKey m → ∀ w : Word, w ∉ ws →
      alLookup (ws.foldl (fun m w => tfBump w id step m) m) w = alLookup m w := by
  induction ws with
  | nil => intro m _ w _; rfl
  | cons w0 rest ih =>
    intro m hm w hw
    rw [List.foldl_cons,
      ih _ (tfBump_skey w0 id step hm) w
        (fun hc => hw (List.mem_cons_of_mem _ hc)),
      tfBump, alBump_alLookup hm w,
      if_neg (fun hc => hw (by rw [hc]; exact List.mem_cons_self _ _))]

/-! ## Preservation of well-formedness -/

theorem AddDocument_ok_parts {s s' : SearchServer} {id : DocumentId}
    {text : String} {st : DocumentStatus} {rs : List Int}
    (h : s.AddDocument id text st rs = .ok s') :
    s'.tf_ = (s.SplitIntoWordsNoStop text).foldl
        (fun m w => tfBump w id (1 / ((s.SplitIntoWordsNoStop text).length : ℚ)) m)
        s.tf_ ∧
    s'.stop_words_ = s.stop_words_ ∧
    s'.document_id_to_rating_and_rating_
      = alBump id (fun _ => (ComputeAverageRating rs, st))
          s.document_id_to_rating_and_rating_ ∧
    s'.document_id_orders_ = s.document_id_orders_ ++ [id] ∧
    alLookup s.document_id_to_rating_and_rating_ id = none := by
  rw [AddDocument] at h
  by_cases hc : id < 0 ∨
      (alLookup s.document_id_to_rating_and_rating_ id).isSome ∨
      IsInvalid text
  · rw [if_pos hc] at h
    cases h
  · rw [if_neg hc] at h
    push_neg at hc
    simp only [] at h
    injection h with h1
    rw [← h1]
    refine ⟨rfl, rfl, rfl, rfl, ?_⟩
    exact Option.not_isSome_iff_eq_none.mp hc.2.1

theorem WF_add {s s' : SearchServer} {id : DocumentId} {text : String}
    {st : DocumentStatus} {rs : List Int} (hwf : WF s)
    (h : s.AddDocument id text st rs = .ok s') : WF s' := by
  obtain ⟨htf, hin, hdocs, hstop, hpost, hrows⟩ := hwf
  obtain ⟨htf', hsw', hdocs', _, hfresh⟩ := AddDocument_ok_parts h
  set ws := s.SplitIntoWordsNoStop text with hws
  set step : ℚ := 1 / (ws.length : ℚ) with hstep
  have htfs' : SKey s'.tf_ := by
    rw [htf']; exact tfFold_skey ws id step s.tf_ htf
  have hins' : ∀ p ∈ s'.tf_, SKey p.2 := by
    rw [htf']; exact tfFold_inner_skey ws id step s.tf_ hin
  have hdocss' : SKey s'.document_id_to_rating_and_rating_ := by
    rw [hdocs']; exact alBump_skey hdocs
  have hrowchar : ∀ (w : Word) (d : DocumentId), s'.rowLookup w d
      = if d = id ∧ 0 < ws.count w
        then some ((s.rowLookup w id).getD 0 + ws.count w * step)
        else s.rowLookup w d := by
    intro w d
    rw [rowLookup, rowLookup, rowLookup, htf']
    exact tfFold_rowLookup ws id step s.tf_ htf hin w d
  have hnoprior : ∀ w : Word, s.rowLookup w id = none := by
    intro w
    rw [rowLookup]
    cases hl : alLookup s.tf_ w with
    | none => rfl
    | some ps =>
      rw [Option.some_bind]
      cases hl2 : alLookup ps id with
      | none => rfl
      | some v =>
        have hd := hpost w ps hl id (by rw [hl2]; rfl)
        rw [hfresh] at hd
        cases hd
  refine ⟨htfs', hins', hdocss', ?_, ?_, ?_⟩
  · intro w hw
    rw [hsw'] at hw
    have hwna : w ∉ ws := by
      intro hmem
      rw [hws, SplitIntoWordsNoStop] at hmem
      have hp := (List.mem_filter.mp hmem).2
      have htrue : s.stop_words_.contains w = true :=
        List.elem_eq_true_of_mem hw
      rw [Bool.not_eq_true', IsStopWord, htrue] at hp
      cases hp
    rw [htf', tfFold_key_lookup ws id step s.tf_ htf w hwna]
    exact hstop w hw
  · intro w ps hlk d hd
    have hsome : (s'.rowLookup w d).isSome := by
      rw [rowLookup, hlk]
      simpa using hd
    rw [hrowchar w d] at hsome
    by_cases hcond : d = id ∧ 0 < ws.count w
    · rw [hdocs']
      obtain ⟨hd1, _⟩ := hcond
      subst hd1
      rw [alBump_lookup_const]
      rfl
    · rw [if_neg hcond] at hsome
      rw [rowLookup] at hsome
      cases hl : alLookup s.tf_ w with
      | none =>
        rw [hl] at hsome
        simp at hsome
      | some ps0 =>
        rw [hl, Option.some_bind] at hsome
        have hds := hpost w ps0 hl d hsome
        rw [hdocs']
        by_cases hdi : d = id
        · subst hdi
          rw [alBump_lookup_const]
          rfl
        · rw [alBump_alLookup hdocs d, if_neg hdi]
          exact hds
  · intro d
    by_cases hdi : d = id
    · subst hdi
      by_cases hempty : ws = []
      · left
        refine rowOf_eq_nil s' htfs' d ?_
        intro w
        rw [hrowchar w d, if_neg ?_, hnoprior w]
        intro hc
        rw [hempty] at hc
        simp at hc
      · right
        refine ⟨ws, hempty, ?_⟩
        refine alExt (rowOf_skey s' htfs' d) (canonRow_skey ws) ?_
        intro w
        rw [rowOf_alLookup s' htfs' d w, hrowchar w d, canonRow_alLookup]
        by_cases hmem : w ∈ ws
        · rw [if_pos ⟨rfl, List.count_pos_iff.mpr hmem⟩, if_pos hmem,
            hnoprior w]
          congr 1
          simp only [Option.getD_none, zero_add, hstep]
          rw [div_eq_mul_inv, one_mul, div_eq_mul_inv]
        · rw [if_neg ?_, hnoprior w, if_neg hmem]
          intro hc
          exact hmem (List.count_pos_iff.mp hc.2)
    · have hsame : s'.rowOf d = s.rowOf d := by
        refine alExt (rowOf_skey s' htfs' d) (rowOf_skey s htf d) ?_
        intro w
        rw [rowOf_alLookup s' htfs' d w, rowOf_alLookup s htf d w,
          hrowchar w d, if_neg (fun hc => hdi hc.1)]
      rw [hsame]
      exact hrows d

theorem WF_init {stop_words : List String} {s : SearchServer}
    (h : mkSearchServer stop_words = .ok s) : WF s := by
  rw [mkSearchServer] at h
  split at h
  · cases h
  · injection h with h1
    rw [← h1]
    refine ⟨List.Pairwise.nil, by simp, List.Pairwise.nil, ?_, ?_, ?_⟩
    · intro w _
      rfl
    · intro w ps hl
      cases hl
    · intro d
      left
      rfl

theorem reachable_WF {s : SearchServer} (h : Reachable s) : WF s := by
  induction h with
  | init stop_words s h0 => exact WF_init h0
  | add s s' id text status ratings _ hadd ih => exact WF_add ih hadd

/-! ## Parsed queries never contain stop words -/

theorem ParseQueryWord_stop (s : SearchServer) (t : Word) (qw : QueryWord)
    (h : s.ParseQueryWord t = .ok qw) : qw.is_stop = s.IsStopWord qw.data := by
  rw [ParseQueryWord] at h
  by_cases hi : IsInvalid t
  · rw [if_pos hi] at h
    cases h
  · rw [if_neg hi] at h
    split at h
    · split at h
      · cases h
      · injection h with h1
        rw [← h1]
    · injection h with h1
      rw [← h1]

theorem parseStep_nostop (s : SearchServer) (q0 : Query) (t : Word) (q1 : Query)
    (h : s.parseStep q0 t = .ok q1) :
    ∀ w, (w ∈ q1.plus_words ∨ w ∈ q1.minus_words) →
      (w ∈ q0.plus_words ∨ w ∈ q0.minus_words) ∨ s.IsStopWord w = false := by
  intro w hw
  rw [parseStep] at h
  cases hp : s.ParseQueryWord t with
  | error e =>
    rw [hp] at h
    cases h
  | ok qw =>
    rw [hp] at h
    simp only [Bind.bind, Except.bind] at h
    by_cases hstop : qw.is_stop
    · rw [if_pos hstop] at h
      injection h with h1
      subst h1
      exact Or.inl hw
    · rw [if_neg hstop] at h
      have hsw : s.IsStopWord qw.data = false := by
        rw [← ParseQueryWord_stop s t qw hp]
        exact Bool.of_not_eq_true hstop
      by_cases hm : qw.is_minus
      · rw [if_pos hm] at h
        injection h with h1
        subst h1
        rcases hw with hw | hw
        · exact Or.inl (Or.inl hw)
        · rcases mem_sInsert.mp hw with h2 | h2
          · subst h2
            exact Or.inr hsw
          · exact Or.inl (Or.inr h2)
      · rw [if_neg hm] at h
        injection h with h1
        subst h1
        rcases hw with hw | hw
        · rcases mem_sInsert.mp hw with h2 | h2
          · subst h2
            exact Or.inr hsw
          · exact Or.inl (Or.inl h2)
        · exact Or.inl (Or.inr hw)

theorem parse_fold_nostop (s : SearchServer) (l : List Word) :
    ∀ q0 q : Query, l.foldlM (s.parseStep) q0 = .ok q →
      ∀ w, (w ∈ q.plus_words ∨ w ∈ q.minus_words) →
        (w ∈ q0.plus_words ∨ w ∈ q0.minus_words) ∨ s.IsStopWord w = false := by
  induction l with
  | nil =>
    intro q0 q h w hw
    injection h with h1
    subst h1
    exact Or.inl hw
  | cons t rest ih =>
    intro q0 q h w hw
    rw [List.foldlM_cons] at h
    cases hp : s.parseStep q0 t with
    | error e =>
      rw [hp] at h
      cases h
    | ok q1 =>
      rw [hp] at h
      simp only [Bind.bind, Except.bind] at h
      rcases ih q1 q h w hw with h1 | h1
      · exact parseStep_nostop s q0 t q1 hp w h1
      · exact Or.inr h1

/-! ## The claims about reachable states -/

/-- C8: in every reachable index state no configured stop word is a key of
the inverted index, and no successfully parsed query contains a stop word in
its plus or minus term set. -/
theorem C8_stop_word_exclusion (s : SearchServer) (hr : Reachable s) :
    (∀ w ∈ s.stop_words_, alLookup s.tf_ w = none) ∧
    (∀ (text : String) (q : Query), s.ParseQuery text = .ok q →
      ∀ w : Word, (w ∈ q.plus_words ∨ w ∈ q.minus_words) →
        w ∉ s.stop_words_) := by
  obtain ⟨_, _, _, hstop, _, _⟩ := reachable_WF hr
  refine ⟨hstop, ?_⟩
  intro text q hq w hw hmem
  rw [ParseQuery] at hq
  rcases parse_fold_nostop s _ ⟨[], []⟩ q hq w hw with h1 | h1
  · rcases h1 with h1 | h1 <;> cases h1
  · have htrue : s.stop_words_.contains w = true :=
      List.elem_eq_true_of_mem hmem
    rw [IsStopWord, htrue] at h1
    cases h1

/-- C8 witness: the state with stop word "the" and the (posting-free)
document 0 is reachable and satisfies both parts of the claim. -/
theorem C8_stop_word_exclusion_witness :
    (∀ w ∈ stopServer1.stop_words_, alLookup stopServer1.tf_ w = none) ∧
    (∀ (text : String) (q : Query), stopServer1.ParseQuery text = .ok q →
      ∀ w : Word, (w ∈ q.plus_words ∨ w ∈ q.minus_words) →
        w ∉ stopServer1.stop_words_) :=
  C8_stop_word_exclusion stopServer1
    (Reachable.add stopServer0 stopServer1 0 "" .ACTUAL []
      (Reachable.init ["the"] stopServer0 rfl) rfl)

/-- C9: when the non-stop word list of the added text is empty, no postings
are created (the inverted index is untouched, so the `1.0/0` infinity of the
C++ code is never stored), while the document is still registered with its
rating, status and insertion order and counts toward the document count. -/
theorem C9_empty_word_list (s : SearchServer) (document_id : DocumentId)
    (document : String) (status : DocumentStatus) (ratings : List Int)
    (s' : SearchServer)
    (hw : s.SplitIntoWordsNoStop document = [])
    (h : s.AddDocument document_id document status ratings = .ok s') :
    s'.tf_ = s.tf_ ∧
    alLookup s'.document_id_to_rating_and_rating_ document_id
      = some (ComputeAverageRating ratings, status) ∧
    s'.document_id_orders_ = s.document_id_orders_ ++ [document_id] ∧
    s'.GetDocumentCount = s.GetDocumentCount + 1 := by
  obtain ⟨htf', _, hdocs', hord', _⟩ := AddDocument_ok_parts h
  refine ⟨?_, ?_, hord', ?_⟩
  · rw [htf', hw]
    rfl
  · rw [hdocs', alBump_lookup_const]
  · rw [GetDocumentCount, GetDocumentCount, hord', List.length_append]
    rfl

/-- C9 witness: adding the text "the" (every word a stop word) to the fresh
server with stop word "the" registers document 0 with rating 0 and creates
no postings. -/
theorem C9_empty_word_list_witness :
    stopServer1.tf_ = stopServer0.tf_ ∧
    alLookup stopServer1.document_id_to_rating_and_rating_ 0
      = some (ComputeAverageRating [], .ACTUAL) ∧
    stopServer1.document_id_orders_ = stopServer0.document_id_orders_ ++ [0] ∧
    stopServer1.GetDocumentCount = stopServer0.GetDocumentCount + 1 :=
  C9_empty_word_list stopServer0 0 "the" .ACTUAL [] stopServer1 rfl rfl

/-- C10: in every reachable index state, every document owning at least one
posting has a word list `ws` (its non-stop words, recorded existentially
since the state does not store texts) such that its tf row is exactly
`canonRow ws` — each stored value is `occurrences / total`, hence strictly
positive — and the row values sum to 1. -/
theorem C10_tf_row_invariant (s : SearchServer) (hr : Reachable s)
    (d : DocumentId) (hrow : s.rowOf d ≠ []) :
    ∃ ws : List Word, ws ≠ [] ∧ s.rowOf d = canonRow ws ∧
      (∀ p ∈ s.rowOf d, 0 < p.2) ∧
      ((s.rowOf d).map (fun p => p.2)).sum = 1 := by
  obtain ⟨_, _, _, _, _, hrows⟩ := reachable_WF hr
  rcases hrows d with h | ⟨ws, hne, hcanon⟩
  · exact absurd h hrow
  · refine ⟨ws, hne, hcanon, ?_, ?_⟩
    · rw [hcanon]
      exact canonRow_pos ws hne
    · rw [hcanon]
      exact canonRow_sum ws hne

/-- C10 witness: after adding document 0 with text "b a b" the reachable
state carries the row `a ↦ 1/3, b ↦ 2/3` with positive entries summing
to 1. -/
theorem C10_tf_row_invariant_witness :
    ∃ ws : List Word, ws ≠ [] ∧ rowWitnessServer.rowOf 0 = canonRow ws ∧
      (∀ p ∈ rowWitnessServer.rowOf 0, 0 < p.2) ∧
      ((rowWitnessServer.rowOf 0).map (fun p => p.2)).sum = 1 :=
  C10_tf_row_invariant rowWitnessServer
    (Reachable.add emptyServer rowWitnessServer 0 "b a b" .ACTUAL [7]
      (Reachable.init [] emptyServer rfl)
      (by
        rw [AddDocument, if_neg (by decide)]
        have hw : emptyServer.SplitIntoWordsNoStop "b a b" = ["b", "a", "b"] := rfl
        simp only [hw]
        rw [rowWitnessServer]
        norm_num [tfBump, alBump, alLookup, ComputeAverageRating, emptyServer]
        rw [if_neg (by decide), if_neg (by decide)]))
    0 (by decide)

end SearchServer

/-! ## Splitting the counterexample texts -/

theorem charBlock_split (c : Char) (hc : isSpaceChar c = false) :
    ∀ (n : Nat) (acc : List Char), acc.isEmpty = false →
      splitWordsAux (charBlock c n) acc
        = String.mk acc.reverse :: List.replicate n (String.mk [c]) := by
  intro n
  induction n with
  | zero =>
    intro acc hacc
    rw [charBlock, splitWordsAux, hacc]
    rfl
  | succ n ih =>
    intro acc hacc
    have hsp : isSpaceChar ' ' = true := rfl
    rw [charBlock, splitWordsAux, if_pos hsp, if_neg (by simp [hacc]),
      splitWordsAux, if_neg (by simp [hc]), ih [c] rfl,
      List.reverse_singleton, List.replicate_succ]

theorem cexText0_split :
    SplitIntoWords cexText0 = "q" :: List.replicate 999 "f" := by
  rw [cexText0, SplitIntoWords]
  show splitWordsAux ('q' :: charBlock 'f' 999) [] = _
  rw [splitWordsAux, if_neg (by decide), charBlock_split 'f' rfl 999 ['q'] rfl]
  rfl

theorem cexText1_split :
    SplitIntoWords cexText1 = "q" :: List.replicate 998 "g" := by
  rw [cexText1, SplitIntoWords]
  show splitWordsAux ('q' :: charBlock 'g' 998) [] = _
  rw [splitWordsAux, if_neg (by decide), charBlock_split 'g' rfl 998 ['q'] rfl]
  rfl

theorem cexText2_split :
    SplitIntoWords cexText2 = "q" :: "q" :: List.replicate 1997 "h" := by
  rw [cexText2, SplitIntoWords]
  show splitWordsAux ('q' :: ' ' :: 'q' :: charBlock 'h' 1997) [] = _
  rw [splitWordsAux, if_neg (by decide),
    splitWordsAux, if_pos (by decide), if_neg (by decide),
    splitWordsAux, if_neg (by decide), charBlock_split 'h' rfl 1997 ['q'] rfl]
  rfl

theorem charBlock_valid (c : Char) (hc : decide (c.toNat ≤ 31) = false) :
    ∀ n : Nat, (charBlock c n).any (fun ch => ch.toNat ≤ 31) = false := by
  intro n
  induction n with
  | zero => rfl
  | succ n ih =>
    rw [charBlock, List.any_cons, List.any_cons, ih]
    simp [hc]

theorem cexText0_valid : IsInvalid cexText0 = false := by
  rw [cexText0, IsInvalid]
  show ('q' :: charBlock 'f' 999).any (fun ch => ch.toNat ≤ 31) = false
  rw [List.any_cons, charBlock_valid 'f' (by decide) 999]
  simp

theorem cexText1_valid : IsInvalid cexText1 = false := by
  rw [cexText1, IsInvalid]
  show ('q' :: charBlock 'g' 998).any (fun ch => ch.toNat ≤ 31) = false
  rw [List.any_cons, charBlock_valid 'g' (by decide) 998]
  simp

theorem cexText2_valid : IsInvalid cexText2 = false := by
  rw [cexText2, IsInvalid]
  show ('q' :: ' ' :: 'q' :: charBlock 'h' 1997).any (fun ch => ch.toNat ≤ 31) = false
  rw [List.any_cons, List.any_cons, List.any_cons,
    charBlock_valid 'h' (by decide) 1997]
  simp

/-! ## Shape of the tf map under the counterexample folds -/

section AlShape

variable {K V : Type} [LinearOrder K]

theorem alBump_append_update (k : K) (f : Option V → V)
    (pre : List (K × V)) (v : V) (tail : List (K × V))
    (hpre : ∀ p ∈ pre, p.1 < k) :
    alBump k f (pre ++ (k, v) :: tail) = pre ++ (k, f (some v)) :: tail := by
  induction pre with
  | nil => simp [alBump]
  | cons p rest ih =>
    obtain ⟨a, w⟩ := p
    have ha : a < k := hpre (a, w) (List.mem_cons_self _ _)
    rw [List.cons_append, alBump, if_neg (ne_of_gt ha),
      if_neg (not_lt_of_gt ha),
      ih (fun p hp => hpre p (List.mem_cons_of_mem _ hp)), List.cons_append]

theorem alBump_append_insert (k : K) (f : Option V → V)
    (pre tail : List (K × V))
    (hpre : ∀ p ∈ pre, p.1 < k) (htail : ∀ p ∈ tail, k < p.1) :
    alBump k f (pre ++ tail) = pre ++ (k, f none) :: tail := by
  induction pre with
  | nil =>
    cases tail with
    | nil => rfl
    | cons p rest =>
      obtain ⟨a, w⟩ := p
      have ha : k < a := htail (a, w) (List.mem_cons_self _ _)
      rw [List.nil_append, alBump, if_neg (ne_of_lt ha), if_pos ha,
        List.nil_append]
  | cons p rest ih =>
    obtain ⟨a, w⟩ := p
    have ha : a < k := hpre (a, w) (List.mem_cons_self _ _)
    rw [List.cons_append, alBump, if_neg (ne_of_gt ha),
      if_neg (not_lt_of_gt ha),
      ih (fun p hp => hpre p (List.mem_cons_of_mem _ hp)), List.cons_append]

end AlShape

namespace SearchServer

theorem tfFold_replicate (w : Word) (id : DocumentId) (st : ℚ) :
    ∀ (n : Nat) (pre tail : List (Word × List (DocumentId × ℚ))) (v : ℚ),
      (∀ p ∈ pre, p.1 < w) →
      (List.replicate n w).foldl (fun m ww => tfBump ww id st m)
          (pre ++ (w, [(id, v)]) :: tail)
        = pre ++ (w, [(id, v + n * st)]) :: tail := by
  intro n
  induction n with
  | zero =>
    intro pre tail v hpre
    simp
  | succ n ih =>
    intro pre tail v hpre
    rw [List.replicate_succ, List.foldl_cons]
    have hstep : tfBump w id st (pre ++ (w, [(id, v)]) :: tail)
        = pre ++ (w, [(id, v + st)]) :: tail := by
      rw [tfBump, alBump_append_update w _ pre _ tail hpre]
      simp [alBump]
    rw [hstep, ih pre tail (v + st) hpre]
    have harith : v + st + (n : ℚ) * st = v + ((n + 1 : ℕ) : ℚ) * st := by
      push_cast
      ring
    rw [harith]

theorem tfFold_replicate_nil (w : Word) (id : DocumentId) (st : ℚ)
    (n : Nat) (tail : List (Word × List (DocumentId × ℚ))) (v : ℚ) :
    (List.replicate n w).foldl (fun m ww => tfBump ww id st m)
        ((w, [(id, v)]) :: tail)
      = (w, [(id, v + n * st)]) :: tail := by
  have h := tfFold_replicate w id st n [] tail v
    (fun p hp => absurd hp (List.not_mem_nil p))
  simpa using h

theorem tfFold_replicate_one (w : Word) (id : DocumentId) (st : ℚ)
    (n : Nat) (p : Word × List (DocumentId × ℚ))
    (tail : List (Word × List (DocumentId × ℚ))) (v : ℚ) (hp : p.1 < w) :
    (List.replicate n w).foldl (fun m ww => tfBump ww id st m)
        (p :: (w, [(id, v)]) :: tail)
      = p :: (w, [(id, v + n * st)]) :: tail := by
  have h := tfFold_replicate w id st n [p] tail v (by
    intro x hx
    rw [List.mem_singleton] at hx
    subst hx
    exact hp)
  simpa using h

theorem tfFold_replicate_two (w : Word) (id : DocumentId) (st : ℚ)
    (n : Nat) (p q : Word × List (DocumentId × ℚ))
    (tail : List (Word × List (DocumentId × ℚ))) (v : ℚ)
    (hp : p.1 < w) (hq : q.1 < w) :
    (List.replicate n w).foldl (fun m ww => tfBump ww id st m)
        (p :: q :: (w, [(id, v)]) :: tail)
      = p :: q :: (w, [(id, v + n * st)]) :: tail := by
  have h := tfFold_replicate w id st n [p, q] tail v (by
    intro x hx
    rcases List.mem_cons.mp hx with h1 | hx
    · subst h1; exact hp
    · rw [List.mem_singleton] at hx
      subst hx
      exact hq)
  simpa using h

end SearchServer

theorem alBump_insert_front {K V : Type} [LinearOrder K] (k : K)
    (f : Option V → V) (tail : List (K × V)) (htail : ∀ p ∈ tail, k < p.1) :
    alBump k f tail = (k, f none) :: tail := by
  have h := alBump_append_insert k f [] tail
    (fun p hp => absurd hp (List.not_mem_nil p)) htail
  simpa using h

/-- `String` order via the (kernel-computable) order on character lists. -/
theorem str_lt_of_toList {a b : String} (h : a.toList < b.toList) : a < b :=
  String.lt_iff_toList_lt.mpr h

theorem forall_lt_of_toList {V : Type} {l : List (String × V)} {k : String}
    (h : ∀ p ∈ l, p.1.toList < k.toList) : ∀ p ∈ l, p.1 < k :=
  fun p hp => str_lt_of_toList (h p hp)

theorem forall_gt_of_toList {V : Type} {l : List (String × V)} {k : String}
    (h : ∀ p ∈ l, k.toList < p.1.toList) : ∀ p ∈ l, k < p.1 :=
  fun p hp => str_lt_of_toList (h p hp)

namespace SearchServer

/-- A server without stop words keeps every split word. -/
theorem SplitIntoWordsNoStop_total (s : SearchServer) (h : s.stop_words_ = [])
    (text : String) : s.SplitIntoWordsNoStop text = SplitIntoWords text := by
  have hs : ∀ w, s.IsStopWord w = false := fun w => by rw [IsStopWord, h]; rfl
  rw [SplitIntoWordsNoStop]
  simp [hs]

/-- First `AddDocument` of the counterexample run: document 0, text
`"q f f … f"` (999 fillers), status `ACTUAL`, ratings `[5]`. -/
theorem cexAdd0 : emptyServer.AddDocument 0 cexText0 .ACTUAL [5] = .ok cexS1 := by
  have hw : emptyServer.SplitIntoWordsNoStop cexText0
      = "q" :: List.replicate 999 "f" := by
    rw [SplitIntoWordsNoStop_total emptyServer rfl, cexText0_split]
  have hstep : (1 : ℚ) / (("q" :: List.replicate 999 "f").length : ℚ)
      = 1 / 1000 := by
    rw [List.length_cons, List.length_replicate]
    norm_num
  have h1 : tfBump "q" 0 ((1:ℚ)/1000) []
      = [("q", [((0:Int), (1/1000:ℚ))])] := by
    rw [tfBump, alBump]
    norm_num [alBump]
  have h2 : tfBump "f" 0 ((1:ℚ)/1000) [("q", [((0:Int), (1/1000:ℚ))])]
      = [("f", [((0:Int), (1/1000:ℚ))]), ("q", [((0:Int), (1/1000:ℚ))])] := by
    rw [tfBump, alBump_insert_front "f" _ _ (by
      intro x hx
      rw [List.mem_singleton] at hx
      subst hx
      exact str_lt_of_toList (by decide))]
    norm_num [alBump]
  have hfold : ("q" :: List.replicate 999 "f").foldl
        (fun m word => tfBump word 0 ((1:ℚ)/1000) m)
        ([] : List (Word × List (DocumentId × ℚ)))
      = [("f", [((0:Int), (999/1000:ℚ))]), ("q", [((0:Int), (1/1000:ℚ))])] := by
    rw [show (999:ℕ) = 998 + 1 from rfl, List.replicate_succ]
    simp only [List.foldl_cons]
    rw [h1, h2, tfFold_replicate_nil "f" 0 ((1:ℚ)/1000) 998 _ ((1:ℚ)/1000)]
    norm_num
  rw [AddDocument, if_neg (by rw [cexText0_valid]; decide)]
  simp only [hw]
  rw [hstep]
  rw [show emptyServer.tf_ = ([] : List (Word × List (DocumentId × ℚ))) from rfl,
    hfold]
  rfl

/-- Second `AddDocument` of the counterexample run: document 1, text
`"q g g … g"` (998 fillers), status `BANNED`, ratings `[]`. -/
theorem cexAdd1 : cexS1.AddDocument 1 cexText1 .BANNED [] = .ok cexS2 := by
  have hw : cexS1.SplitIntoWordsNoStop cexText1
      = "q" :: List.replicate 998 "g" := by
    rw [SplitIntoWordsNoStop_total cexS1 rfl, cexText1_split]
  have hstep : (1 : ℚ) / (("q" :: List.replicate 998 "g").length : ℚ)
      = 1 / 999 := by
    rw [List.length_cons, List.length_replicate]
    norm_num
  have h1 : tfBump "q" 1 ((1:ℚ)/999)
        [("f", [((0:Int), (999/1000:ℚ))]), ("q", [((0:Int), (1/1000:ℚ))])]
      = [("f", [((0:Int), (999/1000:ℚ))]),
         ("q", [((0:Int), (1/1000:ℚ)), ((1:Int), (1/999:ℚ))])] := by
    show tfBump "q" 1 ((1:ℚ)/999)
        ([("f", [((0:Int), (999/1000:ℚ))])]
          ++ ("q", [((0:Int), (1/1000:ℚ))]) :: []) = _
    rw [tfBump, alBump_append_update "q" _ _ _ _ (forall_lt_of_toList (by decide))]
    norm_num [alBump]
  have h2 : tfBump "g" 1 ((1:ℚ)/999)
        [("f", [((0:Int), (999/1000:ℚ))]),
         ("q", [((0:Int), (1/1000:ℚ)), ((1:Int), (1/999:ℚ))])]
      = [("f", [((0:Int), (999/1000:ℚ))]), ("g", [((1:Int), (1/999:ℚ))]),
         ("q", [((0:Int), (1/1000:ℚ)), ((1:Int), (1/999:ℚ))])] := by
    show tfBump "g" 1 ((1:ℚ)/999)
        ([("f", [((0:Int), (999/1000:ℚ))])]
          ++ [("q", [((0:Int), (1/1000:ℚ)), ((1:Int), (1/999:ℚ))])]) = _
    rw [tfBump, alBump_append_insert "g" _ _ _
      (forall_lt_of_toList (by decide)) (forall_gt_of_toList (by decide))]
    norm_num [alBump]
  have hfold : ("q" :: List.replicate 998 "g").foldl
        (fun m word => tfBump word 1 ((1:ℚ)/999) m)
        [("f", [((0:Int), (999/1000:ℚ))]), ("q", [((0:Int), (1/1000:ℚ))])]
      = [("f", [((0:Int), (999/1000:ℚ))]), ("g", [((1:Int), (998/999:ℚ))]),
         ("q", [((0:Int), (1/1000:ℚ)), ((1:Int), (1/999:ℚ))])] := by
    rw [show (998:ℕ) = 997 + 1 from rfl, List.replicate_succ]
    simp only [List.foldl_cons]
    rw [h1, h2, tfFold_replicate_one "g" 1 ((1:ℚ)/999) 997 _ _ ((1:ℚ)/999)
      (str_lt_of_toList (by decide))]
    norm_num
  rw [AddDocument, if_neg (by rw [cexText1_valid]; decide)]
  simp only [hw]
  rw [hstep]
  rw [show cexS1.tf_ = [("f", [((0:Int), (999/1000:ℚ))]),
      ("q", [((0:Int), (1/1000:ℚ))])] from rfl, hfold]
  rfl

/-- Third `AddDocument` of the counterexample run: document 2, text
`"q q h h … h"` (1997 fillers), status `ACTUAL`, ratings `[9]`. -/
theorem cexAdd2 : cexS2.AddDocument 2 cexText2 .ACTUAL [9] = .ok cexS3 := by
  have hw : cexS2.SplitIntoWordsNoStop cexText2
      = "q" :: "q" :: List.replicate 1997 "h" := by
    rw [SplitIntoWordsNoStop_total cexS2 rfl, cexText2_split]
  have hstep : (1 : ℚ) / (("q" :: "q" :: List.replicate 1997 "h").length : ℚ)
      = 1 / 1999 := by
    rw [List.length_cons, List.length_cons, List.length_replicate]
    norm_num
  have h1 : tfBump "q" 2 ((1:ℚ)/1999)
        [("f", [((0:Int), (999/1000:ℚ))]), ("g", [((1:Int), (998/999:ℚ))]),
         ("q", [((0:Int), (1/1000:ℚ)), ((1:Int), (1/999:ℚ))])]
      = [("f", [((0:Int), (999/1000:ℚ))]), ("g", [((1:Int), (998/999:ℚ))]),
         ("q", [((0:Int), (1/1000:ℚ)), ((1:Int), (1/999:ℚ)),
           ((2:Int), (1/1999:ℚ))])] := by
    show tfBump "q" 2 ((1:ℚ)/1999)
        ([("f", [((0:Int), (999/1000:ℚ))]), ("g", [((1:Int), (998/999:ℚ))])]
          ++ ("q", [((0:Int), (1/1000:ℚ)), ((1:Int), (1/999:ℚ))]) :: []) = _
    rw [tfBump, alBump_append_update "q" _ _ _ _ (forall_lt_of_toList (by decide))]
    norm_num [alBump]
  have h2 : tfBump "q" 2 ((1:ℚ)/1999)
        [("f", [((0:Int), (999/1000:ℚ))]), ("g", [((1:Int), (998/999:ℚ))]),
         ("q", [((0:Int), (1/1000:ℚ)), ((1:Int), (1/999:ℚ)),
           ((2:Int), (1/1999:ℚ))])]
      = [("f", [((0:Int), (999/1000:ℚ))]), ("g", [((1:Int), (998/999:ℚ))]),
         ("q", [((0:Int), (1/1000:ℚ)), ((1:Int), (1/999:ℚ)),
           ((2:Int), (2/1999:ℚ))])] := by
    show tfBump "q" 2 ((1:ℚ)/1999)
        ([("f", [((0:Int), (999/1000:ℚ))]), ("g", [((1:Int), (998/999:ℚ))])]
          ++ ("q", [((0:Int), (1/1000:ℚ)), ((1:Int), (1/999:ℚ)),
            ((2:Int), (1/1999:ℚ))]) :: []) = _
    rw [tfBump, alBump_append_update "q" _ _ _ _ (forall_lt_of_toList (by decide))]
    norm_num [alBump]
  have h3 : tfBump "h" 2 ((1:ℚ)/1999)
        [("f", [((0:Int), (999/1000:ℚ))]), ("g", [((1:Int), (998/999:ℚ))]),
         ("q", [((0:Int), (1/1000:ℚ)), ((1:Int), (1/999:ℚ)),
           ((2:Int), (2/1999:ℚ))])]
      = [("f", [((0:Int), (999/1000:ℚ))]), ("g", [((1:Int), (998/999:ℚ))]),
         ("h", [((2:Int), (1/1999:ℚ))]),
         ("q", [((0:Int), (1/1000:ℚ)), ((1:Int), (1/999:ℚ)),
           ((2:Int), (2/1999:ℚ))])] := by
    show tfBump "h" 2 ((1:ℚ)/1999)
        ([("f", [((0:Int), (999/1000:ℚ))]), ("g", [((1:Int), (998/999:ℚ))])]
          ++ [("q", [((0:Int), (1/1000:ℚ)), ((1:Int), (1/999:ℚ)),
            ((2:Int), (2/1999:ℚ))])]) = _
    rw [tfBump, alBump_append_insert "h" _ _ _
      (forall_lt_of_toList (by decide)) (forall_gt_of_toList (by decide))]
    norm_num [alBump]
  have hfold : ("q" :: "q" :: List.replicate 1997 "h").foldl
        (fun m word => tfBump word 2 ((1:ℚ)/1999) m)
        [("f", [((0:Int), (999/1000:ℚ))]), ("g", [((1:Int), (998/999:ℚ))]),
         ("q", [((0:Int), (1/1000:ℚ)), ((1:Int), (1/999:ℚ))])]
      = [("f", [((0:Int), (999/1000:ℚ))]), ("g", [((1:Int), (998/999:ℚ))]),
         ("h", [((2:Int), (1997/1999:ℚ))]),
         ("q", [((0:Int), (1/1000:ℚ)), ((1:Int), (1/999:ℚ)),
           ((2:Int), (2/1999:ℚ))])] := by
    rw [show (1997:ℕ) = 1996 + 1 from rfl, List.replicate_succ]
    simp only [List.foldl_cons]
    rw [h1, h2, h3, tfFold_replicate_two "h" 2 ((1:ℚ)/1999) 1996 _ _ _ ((1:ℚ)/1999)
      (str_lt_of_toList (by decide)) (str_lt_of_toList (by decide))]
    norm_num
  rw [AddDocument, if_neg (by rw [cexText2_valid]; decide)]
  simp only [hw]
  rw [hstep]
  rw [show cexS2.tf_ = [("f", [((0:Int), (999/1000:ℚ))]),
      ("g", [((1:Int), (998/999:ℚ))]),
      ("q", [((0:Int), (1/1000:ℚ)), ((1:Int), (1/999:ℚ))])] from rfl, hfold]
  rfl

/-- Fourth `AddDocument` of the counterexample run: document 3, text `"z"`,
status `ACTUAL`, ratings `[]`. -/
theorem cexAdd3 : cexS3.AddDocument 3 "z" .ACTUAL [] = .ok cexS4 := by
  have hw : cexS3.SplitIntoWordsNoStop "z" = ["z"] := by
    rw [SplitIntoWordsNoStop_total cexS3 rfl]
    rfl
  have hstep : (1 : ℚ) / ((["z"].length : ℕ) : ℚ) = 1 := by norm_num
  have h1 : tfBump "z" 3 1
        [("f", [((0:Int), (999/1000:ℚ))]), ("g", [((1:Int), (998/999:ℚ))]),
         ("h", [((2:Int), (1997/1999:ℚ))]),
         ("q", [((0:Int), (1/1000:ℚ)), ((1:Int), (1/999:ℚ)),
           ((2:Int), (2/1999:ℚ))])]
      = [("f", [((0:Int), (999/1000:ℚ))]), ("g", [((1:Int), (998/999:ℚ))]),
         ("h", [((2:Int), (1997/1999:ℚ))]),
         ("q", [((0:Int), (1/1000:ℚ)), ((1:Int), (1/999:ℚ)),
           ((2:Int), (2/1999:ℚ))]),
         ("z", [((3:Int), (1:ℚ))])] := by
    show tfBump "z" 3 1
        ([("f", [((0:Int), (999/1000:ℚ))]), ("g", [((1:Int), (998/999:ℚ))]),
          ("h", [((2:Int), (1997/1999:ℚ))]),
          ("q", [((0:Int), (1/1000:ℚ)), ((1:Int), (1/999:ℚ)),
            ((2:Int), (2/1999:ℚ))])] ++ []) = _
    rw [tfBump, alBump_append_insert "z" _ _ _
      (forall_lt_of_toList (by decide))
      (fun p hp => absurd hp (List.not_mem_nil p))]
    norm_num [alBump]
  rw [AddDocument, if_neg (by decide)]
  simp only [hw]
  rw [hstep]
  rw [show cexS3.tf_ = [("f", [((0:Int), (999/1000:ℚ))]),
      ("g", [((1:Int), (998/999:ℚ))]), ("h", [((2:Int), (1997/1999:ℚ))]),
      ("q", [((0:Int), (1/1000:ℚ)), ((1:Int), (1/999:ℚ)),
        ((2:Int), (2/1999:ℚ))])] from rfl]
  simp only [List.foldl_cons, List.foldl_nil]
  rw [h1]
  rfl

/-- Fifth `AddDocument` of the counterexample run: document 4, text `"z"`,
status `ACTUAL`, ratings `[]`. -/
theorem cexAdd4 : cexS4.AddDocument 4 "z" .ACTUAL [] = .ok cexS5 := by
  have hw : cexS4.SplitIntoWordsNoStop "z" = ["z"] := by
    rw [SplitIntoWordsNoStop_total cexS4 rfl]
    rfl
  have hstep : (1 : ℚ) / ((["z"].length : ℕ) : ℚ) = 1 := by norm_num
  have h1 : tfBump "z" 4 1
        [("f", [((0:Int), (999/1000:ℚ))]), ("g", [((1:Int), (998/999:ℚ))]),
         ("h", [((2:Int), (1997/1999:ℚ))]),
         ("q", [((0:Int), (1/1000:ℚ)), ((1:Int), (1/999:ℚ)),
           ((2:Int), (2/1999:ℚ))]),
         ("z", [((3:Int), (1:ℚ))])]
      = [("f", [((0:Int), (999/1000:ℚ))]), ("g", [((1:Int), (998/999:ℚ))]),
         ("h", [((2:Int), (1997/1999:ℚ))]),
         ("q", [((0:Int), (1/1000:ℚ)), ((1:Int), (1/999:ℚ)),
           ((2:Int), (2/1999:ℚ))]),
         ("z", [((3:Int), (1:ℚ)), ((4:Int), (1:ℚ))])] := by
    show tfBump "z" 4 1
        ([("f", [((0:Int), (999/1000:ℚ))]), ("g", [((1:Int), (998/999:ℚ))]),
          ("h", [((2:Int), (1997/1999:ℚ))]),
          ("q", [((0:Int), (1/1000:ℚ)), ((1:Int), (1/999:ℚ)),
            ((2:Int), (2/1999:ℚ))])]
          ++ ("z", [((3:Int), (1:ℚ))]) :: []) = _
    rw [tfBump, alBump_append_update "z" _ _ _ _ (forall_lt_of_toList (by decide))]
    norm_num [alBump]
  rw [AddDocument, if_neg (by decide)]
  simp only [hw]
  rw [hstep]
  rw [show cexS4.tf_ = [("f", [((0:Int), (999/1000:ℚ))]),
      ("g", [((1:Int), (998/999:ℚ))]), ("h", [((2:Int), (1997/1999:ℚ))]),
      ("q", [((0:Int), (1/1000:ℚ)), ((1:Int), (1/999:ℚ)),
        ((2:Int), (2/1999:ℚ))]),
      ("z", [((3:Int), (1:ℚ))])] from rfl]
  simp only [List.foldl_cons, List.foldl_nil]
  rw [h1]
  rfl

/-- Sixth `AddDocument` of the counterexample run: document 5, text `"z"`,
status `ACTUAL`, ratings `[]`. -/
theorem cexAdd5 : cexS5.AddDocument 5 "z" .ACTUAL [] = .ok cexS6 := by
  have hw : cexS5.SplitIntoWordsNoStop "z" = ["z"] := by
    rw [SplitIntoWordsNoStop_total cexS5 rfl]
    rfl
  have hstep : (1 : ℚ) / ((["z"].length : ℕ) : ℚ) = 1 := by norm_num
  have h1 : tfBump "z" 5 1
        [("f", [((0:Int), (999/1000:ℚ))]), ("g", [((1:Int), (998/999:ℚ))]),
         ("h", [((2:Int), (1997/1999:ℚ))]),
         ("q", [((0:Int), (1/1000:ℚ)), ((1:Int), (1/999:ℚ)),
           ((2:Int), (2/1999:ℚ))]),
         ("z", [((3:Int), (1:ℚ)), ((4:Int), (1:ℚ))])]
      = [("f", [((0:Int), (999/1000:ℚ))]), ("g", [((1:Int), (998/999:ℚ))]),
         ("h", [((2:Int), (1997/1999:ℚ))]),
         ("q", [((0:Int), (1/1000:ℚ)), ((1:Int), (1/999:ℚ)),
           ((2:Int), (2/1999:ℚ))]),
         ("z", [((3:Int), (1:ℚ)), ((4:Int), (1:ℚ)), ((5:Int), (1:ℚ))])] := by
    show tfBump "z" 5 1
        ([("f", [((0:Int), (999/1000:ℚ))]), ("g", [((1:Int), (998/999:ℚ))]),
          ("h", [((2:Int), (1997/1999:ℚ))]),
          ("q", [((0:Int), (1/1000:ℚ)), ((1:Int), (1/999:ℚ)),
            ((2:Int), (2/1999:ℚ))])]
          ++ ("z", [((3:Int), (1:ℚ)), ((4:Int), (1:ℚ))]) :: []) = _
    rw [tfBump, alBump_append_update "z" _ _ _ _ (forall_lt_of_toList (by decide))]
    norm_num [alBump]
  rw [AddDocument, if_neg (by decide)]
  simp only [hw]
  rw [hstep]
  rw [show cexS5.tf_ = [("f", [((0:Int), (999/1000:ℚ))]),
      ("g", [((1:Int), (998/999:ℚ))]), ("h", [((2:Int), (1997/1999:ℚ))]),
      ("q", [((0:Int), (1/1000:ℚ)), ((1:Int), (1/999:ℚ)),
        ((2:Int), (2/1999:ℚ))]),
      ("z", [((3:Int), (1:ℚ)), ((4:Int), (1:ℚ))])] from rfl]
  simp only [List.foldl_cons, List.foldl_nil]
  rw [h1]
  rfl

/-- On the reachable six-document state, the comparator that the code hands
to `std::sort` holds in both directions between the emitted documents 0 and 1
(document 1 wins on raw relevance; document 0 wins under the epsilon-tie
rating rule, since the two relevances differ by `ln 2 / 999000 < 1e-6`).
The comparator is therefore not asymmetric on this emitted document set — it
is not the strict weak order `std::sort` requires — so the order of the
code's result list at this state is not defined by the source. -/
theorem sortLt_no_strict_weak_order :
    (mkSearchServer [] = .ok emptyServer ∧
     emptyServer.AddDocument 0 cexText0 .ACTUAL [5] = .ok cexS1 ∧
     cexS1.AddDocument 1 cexText1 .BANNED [] = .ok cexS2 ∧
     cexS2.AddDocument 2 cexText2 .ACTUAL [9] = .ok cexS3 ∧
     cexS3.AddDocument 3 "z" .ACTUAL [] = .ok cexS4 ∧
     cexS4.AddDocument 4 "z" .ACTUAL [] = .ok cexS5 ∧
     cexS5.AddDocument 5 "z" .ACTUAL [] = .ok cexS6) ∧
    cexS6.ParseQuery "q" = .ok ⟨["q"], []⟩ ∧
    cexS6.FindAllDocuments ⟨["q"], []⟩ = .ok [cexD0, cexD1, cexD2] ∧
    sortLt cexD0 cexD1 ∧ sortLt cexD1 cexD0 := by
  have hlog2pos : (0:ℝ) < Real.log 2 := Real.log_pos (by norm_num)
  have hparse : cexS6.ParseQuery "q" = .ok ⟨["q"], []⟩ := by rfl
  have hlook : alLookup cexS6.tf_ "q"
      = some [((0:Int), (1/1000:ℚ)), ((1:Int), (1/999:ℚ)),
        ((2:Int), (2/1999:ℚ))] := by rfl
  have hidf : cexS6.CalculateIDF 3 = Real.log 2 := by
    rw [CalculateIDF]
    norm_num [GetDocumentCount, cexS6]
  have hrel : cexS6.FindAllRelevance ⟨["q"], []⟩
      = [((0:Int), Real.log 2 * (1/1000 : ℝ)),
         ((1:Int), Real.log 2 * (1/999 : ℝ)),
         ((2:Int), Real.log 2 * (2/1999 : ℝ))] := by
    rw [FindAllRelevance, minusPhase, plusPhase]
    simp only [List.foldl_cons, List.foldl_nil]
    rw [accTerm, hlook]
    show List.foldl (bumpRel (cexS6.CalculateIDF
        ([((0:Int), (1/1000:ℚ)), ((1:Int), (1/999:ℚ)),
          ((2:Int), (2/1999:ℚ))]).length))
        [] [((0:Int), (1/1000:ℚ)), ((1:Int), (1/999:ℚ)),
          ((2:Int), (2/1999:ℚ))] = _
    rw [show ([((0:Int), (1/1000:ℚ)), ((1:Int), (1/999:ℚ)),
      ((2:Int), (2/1999:ℚ))]).length = 3 from rfl, hidf]
    simp only [List.foldl_cons, List.foldl_nil, bumpRel]
    norm_num [alBump]
  have hfad : cexS6.FindAllDocuments ⟨["q"], []⟩
      = .ok [cexD0, cexD1, cexD2] := by
    rw [FindAllDocuments, hrel]
    rfl
  have h01 : sortLt cexD0 cexD1 := by
    rw [sortLt]
    right
    constructor
    · show |Real.log 2 * (1/1000 : ℝ) - Real.log 2 * (1/999 : ℝ)| < EPSILON
      rw [show Real.log 2 * (1/1000 : ℝ) - Real.log 2 * (1/999 : ℝ)
          = -(Real.log 2 * (1/999000 : ℝ)) by ring]
      rw [abs_neg, abs_of_pos (mul_pos hlog2pos (by norm_num)), EPSILON]
      have hlt : Real.log 2 < 0.6931471808 := Real.log_two_lt_d9
      calc Real.log 2 * (1/999000 : ℝ)
          < 0.6931471808 * (1/999000 : ℝ) :=
            mul_lt_mul_of_pos_right hlt (by norm_num)
        _ < 1 / 1000000 := by norm_num
    · show (0:ℤ) < (5:ℤ)
      norm_num
  have h10 : sortLt cexD1 cexD0 := by
    rw [sortLt]
    left
    show Real.log 2 * (1/1000 : ℝ) < Real.log 2 * (1/999 : ℝ)
    exact mul_lt_mul_of_pos_left (by norm_num) hlog2pos
  exact ⟨⟨rfl, cexAdd0, cexAdd1, cexAdd2, cexAdd3, cexAdd4, cexAdd5⟩,
    hparse, hfad, h01, h10⟩

/-- Inside `std::sort`'s contract the picture is clean: when the sorted
output is pairwise ordered by the comparator (which the sort's postcondition
guarantees whenever the comparator is a strict weak order on the input),
every predicate-filtered sublist of it, and every truncation of that sublist,
satisfies the claimed adjacent-pair ranking order.  The claimed order can
therefore fail only by way of the undefined behaviour of sorting with a
comparator that is not a strict weak order, as exhibited above. -/
theorem rankedOk_filter_of_pairwise (l : List Document) (p : Document → Bool)
    (n : Nat) (h : l.Pairwise (fun a b => ¬ sortLt b a)) :
    rankedOk (l.filter p) ∧ rankedOk ((l.filter p).take n) := by
  have hp : (l.filter p).Pairwise rankedPair :=
    (h.filter p).imp fun {a b} hn => rankedPair_of_adjacent a b (Or.inr hn)
  constructor
  · rw [rankedOk]
    exact hp.chain'
  · rw [rankedOk]
    exact hp.chain'.take n

end SearchServer

end SearchSpec
